import Mathlib

/-!
Verification of the klabctl stack-cache manager, template generation loop and
schema validator, shallowly embedded from the Go sources
(`internal/cli/pull.go`, `internal/cli/generate.go`, `internal/cli/vendor.go`,
`internal/config/site.go`).

Modelling conventions:
* External `git` invocations are modelled through an environment record whose
  boolean fields say whether each subprocess call succeeds, and whose state
  fields describe the repository state an operation produces.
* Filesystem paths are lists of path segments (`filepath.Join` on clean,
  separator-free segments is exactly list append).
* Functions that stream diagnostics to stderr only: the prints are dropped,
  everything else is kept.
-/

namespace Klabctl

/-! ## Stack cache manager (`internal/cli/pull.go`) -/

/-- Observable state of a git working copy in the cache directory, as seen by
the git subprocesses `pull.go` runs.
* `headRef`: output of `git rev-parse --abbrev-ref HEAD` (the literal string
  `"HEAD"` when detached);
* `shortHash`: output of `git rev-parse --short HEAD`;
* `abbrevOk` / `shortOk`: whether those two commands succeed;
* `statusOk`: whether `git status --porcelain` succeeds;
* `modified`: tracked files differ from HEAD (porcelain output nonempty);
* `untracked`: untracked files present (porcelain output nonempty);
* `subdirsPresent`: the required `stack`, `stack/apps`, `stack/templates`
  directories all exist on disk;
* `headHasSubdirs`: the HEAD commit's tree contains those directories (so a
  `git reset --hard HEAD && git clean -fd` leaves them present iff this holds);
* `resetOk` / `cleanOk`: whether `git reset --hard HEAD` / `git clean -fd`
  succeed. -/
structure GitRepoState where
  headRef : String
  shortHash : String
  abbrevOk : Bool
  shortOk : Bool
  statusOk : Bool
  modified : Bool
  untracked : Bool
  subdirsPresent : Bool
  headHasSubdirs : Bool
  resetOk : Bool
  cleanOk : Bool
deriving DecidableEq, Repr

/-- The cache directory `.klabctl/cache/stack/<ref>`: absent, present without a
`.git` subdirectory, or a git working copy. -/
inductive CacheDir where
  | missing
  | notGitRepo
  | repo (g : GitRepoState)
deriving DecidableEq, Repr

/-- Mutating repository operations performed by the cache manager; read-only
commands (`rev-parse`, `status`, `os.Stat`) are not mutations and are not
traced. `remove` is `os.RemoveAll` of the cache directory. -/
inductive GitOp where
  | clone
  | fetch
  | checkout
  | pull
  | reset
  | clean
  | remove
deriving DecidableEq, Repr

/-- Environment: outcome of every external effect `EnsureStackAvailable` can
perform. `cloneResult` is the repository state a successful fresh shallow
clone produces; `switchResult` the state after a successful
`fetch && checkout` (with the tolerated `pull --ff-only` folded in). -/
structure RemoteEnv where
  hiddenDirOk : Bool
  gitOnPath : Bool
  mkdirOk : Bool
  cloneOk : Bool
  cloneResult : GitRepoState
  fetchOk : Bool
  checkoutOk : Bool
  switchResult : GitRepoState
  removeOk : Bool
deriving DecidableEq, Repr

/-- `isGitRepo` (pull.go): the directory exists and contains `.git`. -/
def isGitRepo : CacheDir → Bool
  | CacheDir.repo _ => true
  | _ => false

/-- `getCachedVersion` (pull.go): current branch name, or the short commit
hash when HEAD is detached; `none` models the error returns. -/
def getCachedVersion : CacheDir → Option String
  | CacheDir.repo g =>
      if !g.abbrevOk then none
      else if g.headRef = "HEAD" then
        if !g.shortOk then none else some g.shortHash
      else some g.headRef
  | _ => none

/-- `isValidCache` (pull.go): git repo, `git status --porcelain` succeeds and
is empty, and the required stack subdirectories exist. -/
def isValidCache : CacheDir → Bool
  | CacheDir.repo g => g.statusOk && !(g.modified || g.untracked) && g.subdirsPresent
  | _ => false

/-- Repository state after a successful `git reset --hard HEAD && git clean
-fd`: tracked modifications gone, untracked files gone, the required
subdirectories present exactly when HEAD's tree has them. -/
def repairedState (g : GitRepoState) : GitRepoState :=
  { g with modified := false, untracked := false, subdirsPresent := g.headHasSubdirs }

/-- `repairCache` (pull.go): hard reset to HEAD, then remove untracked files.
Returns (success, resulting directory, mutating operations attempted). -/
def repairCache : CacheDir → Bool × CacheDir × List GitOp
  | CacheDir.missing => (false, CacheDir.missing, [])
  | CacheDir.notGitRepo => (false, CacheDir.notGitRepo, [])
  | CacheDir.repo g =>
      if !g.resetOk then (false, CacheDir.repo g, [GitOp.reset])
      else if !g.cleanOk then
        (false, CacheDir.repo { g with modified := false }, [GitOp.reset, GitOp.clean])
      else (true, CacheDir.repo (repairedState g), [GitOp.reset, GitOp.clean])

/-- `updateGitRepo` (pull.go): `git fetch origin`, `git checkout <ref>`, then a
tolerated `git pull --ff-only` (its error is discarded). -/
def updateGitRepo (env : RemoteEnv) (g : GitRepoState) : Bool × CacheDir × List GitOp :=
  if !env.fetchOk then (false, CacheDir.repo g, [GitOp.fetch])
  else if !env.checkoutOk then (false, CacheDir.repo g, [GitOp.fetch, GitOp.checkout])
  else (true, CacheDir.repo env.switchResult, [GitOp.fetch, GitOp.checkout, GitOp.pull])

/-- `pullStack` (pull.go), invoked only when the cache directory is absent:
look up git on PATH, create the parent directory, shallow clone (depth 1).
A failed clone leaves no usable directory. -/
def pullStack (env : RemoteEnv) : Bool × CacheDir × List GitOp :=
  if !env.gitOnPath then (false, CacheDir.missing, [])
  else if !env.mkdirOk then (false, CacheDir.missing, [])
  else if !env.cloneOk then (false, CacheDir.missing, [GitOp.clone])
  else (true, CacheDir.repo env.cloneResult, [GitOp.clone])

/-- `EnsureStackAvailable` (pull.go), with a fuel bound on the recursion
(`none` = fuel exhausted; the Go function recurses on itself after deleting a
corrupt cache). Result: (returned without error?, final cache directory,
mutating operations in order). -/
def ensureStackAvailable (env : RemoteEnv) (ref : String) :
    Bool → CacheDir → Nat → Option (Bool × CacheDir × List GitOp)
  | _, _, 0 => none
  | force, d, fuel + 1 =>
    if !env.hiddenDirOk then some (false, d, []) else
    -- force flag: remove the cache; a failed removal is only a warning
    let d1 := if force then (if env.removeOk then CacheDir.missing else d) else d
    let t0 : List GitOp := if force then [GitOp.remove] else []
    match d1 with
    | CacheDir.missing =>
        let r := pullStack env
        some (r.1, r.2.1, t0 ++ r.2.2)
    | CacheDir.notGitRepo =>
        -- corrupted: remove and restart
        if !env.removeOk then some (false, CacheDir.notGitRepo, t0)
        else
          match ensureStackAvailable env ref false CacheDir.missing fuel with
          | none => none
          | some r => some (r.1, r.2.1, t0 ++ GitOp.remove :: r.2.2)
    | CacheDir.repo g =>
        match getCachedVersion (CacheDir.repo g) with
        | none =>
            -- cannot determine the ref: remove and restart
            if !env.removeOk then some (false, CacheDir.repo g, t0)
            else
              match ensureStackAvailable env ref false CacheDir.missing fuel with
              | none => none
              | some r => some (r.1, r.2.1, t0 ++ GitOp.remove :: r.2.2)
        | some currentRef =>
            if currentRef = ref then
              if isValidCache (CacheDir.repo g) then some (true, CacheDir.repo g, t0)
              else
                let rep := repairCache (CacheDir.repo g)
                if rep.1 then some (true, rep.2.1, t0 ++ rep.2.2)
                else if !env.removeOk then some (false, rep.2.1, t0 ++ rep.2.2)
                else
                  match ensureStackAvailable env ref false CacheDir.missing fuel with
                  | none => none
                  | some r => some (r.1, r.2.1, t0 ++ rep.2.2 ++ GitOp.remove :: r.2.2)
            else
              let upd := updateGitRepo env g
              if !upd.1 then
                if !env.removeOk then some (false, upd.2.1, t0 ++ upd.2.2)
                else
                  match ensureStackAvailable env ref false CacheDir.missing fuel with
                  | none => none
                  | some r => some (r.1, r.2.1, t0 ++ upd.2.2 ++ GitOp.remove :: r.2.2)
              else
                if isValidCache upd.2.1 then some (true, upd.2.1, t0 ++ upd.2.2)
                else
                  let rep := repairCache upd.2.1
                  if rep.1 then some (true, rep.2.1, t0 ++ upd.2.2 ++ rep.2.2)
                  else if !env.removeOk then some (false, rep.2.1, t0 ++ upd.2.2 ++ rep.2.2)
                  else
                    match ensureStackAvailable env ref false CacheDir.missing fuel with
                    | none => none
                    | some r =>
                        some (r.1, r.2.1, t0 ++ upd.2.2 ++ rep.2.2 ++ GitOp.remove :: r.2.2)

/-- The missing-directory branch of `EnsureStackAvailable` does not recurse:
at any nonzero fuel it returns the outcome of the fresh shallow clone. -/
theorem ensure_missing_eq (env : RemoteEnv) (ref : String) (fuel : Nat) :
    ensureStackAvailable env ref false CacheDir.missing (fuel + 1) =
      if env.hiddenDirOk then
        some ((pullStack env).1, (pullStack env).2.1, (pullStack env).2.2)
      else some (false, CacheDir.missing, []) := by
  cases h : env.hiddenDirOk <;> simp [ensureStackAvailable, h]

/-- Fuel beyond 2 never changes the result: every corruption branch removes the
cache directory and re-enters through the non-recursive missing-directory
branch, so the recursion depth is at most one. -/
theorem ensure_fuel_stable (env : RemoteEnv) (ref : String) (force : Bool) (d : CacheDir)
    (fuel : Nat) :
    ensureStackAvailable env ref force d (fuel + 2) = ensureStackAvailable env ref force d 2 := by
  show ensureStackAvailable env ref force d (fuel + 1 + 1) =
    ensureStackAvailable env ref force d (1 + 1)
  cases d <;> simp [ensureStackAvailable]

/-- Fuel 2 always suffices: the call returns (success or error) rather than
running out of fuel. -/
theorem ensure_two_isSome (env : RemoteEnv) (ref : String) (force : Bool) (d : CacheDir) :
    (ensureStackAvailable env ref force d 2).isSome := by
  show (ensureStackAvailable env ref force d (1 + 1)).isSome
  cases d <;> simp [ensureStackAvailable] <;> (repeat' split) <;> simp_all

/-- C4: `EnsureStackAvailable` terminates on every input: the delete-and-reclone
fallback is a bounded one-level recursive retry. At fuel 2 the function always
returns, and extra fuel never changes the result — each corruption branch
deletes the cache and recurses at most once into the missing-directory path,
where a fresh clone either succeeds or errors without further recursion. -/
theorem c4_ensure_terminates (env : RemoteEnv) (ref : String) (force : Bool) (d : CacheDir)
    (extra : Nat) :
    (ensureStackAvailable env ref force d 2).isSome ∧
      ensureStackAvailable env ref force d (extra + 2) =
        ensureStackAvailable env ref force d 2 :=
  ⟨ensure_two_isSome env ref force d, ensure_fuel_stable env ref force d extra⟩

/-- A cache on the requested ref whose working tree has a tracked modification,
while HEAD's tree lacks the required stack subdirectories; reset and clean
succeed. Repair therefore completes but leaves the cache invalid. -/
def repoNoSubdirsInHead : GitRepoState :=
  { headRef := "v1", shortHash := "abc1234", abbrevOk := true, shortOk := true,
    statusOk := true, modified := true, untracked := false, subdirsPresent := true,
    headHasSubdirs := false, resetOk := true, cleanOk := true }

/-- Environment in which every external operation succeeds and a fresh clone
reproduces `repoNoSubdirsInHead`. -/
def envAllOk : RemoteEnv :=
  { hiddenDirOk := true, gitOnPath := true, mkdirOk := true, cloneOk := true,
    cloneResult := repoNoSubdirsInHead, fetchOk := true, checkoutOk := true,
    switchResult := repoNoSubdirsInHead, removeOk := true }

/-- C1 counterexample: a same-ref cache that `isValidCache` rejects, on which
the repair completes (reset and clean both succeed) but the repaired cache is
still invalid (HEAD lacks the required subdirectories). `EnsureStackAvailable`
returns success anyway — no delete-and-restart happens and success is returned
while the same-ref cache remains invalid after repair. -/
theorem c1_counterexample :
    getCachedVersion (CacheDir.repo repoNoSubdirsInHead) = some "v1" ∧
    isValidCache (CacheDir.repo repoNoSubdirsInHead) = false ∧
    ensureStackAvailable envAllOk "v1" false (CacheDir.repo repoNoSubdirsInHead) 2 =
      some (true, CacheDir.repo (repairedState repoNoSubdirsInHead),
        [GitOp.reset, GitOp.clean]) ∧
    isValidCache (CacheDir.repo (repairedState repoNoSubdirsInHead)) = false := by
  decide

/-- C1 (amended): when the same-ref cache is invalid, a repair is attempted.
If the repair itself errors, the cache directory is deleted and the algorithm
restarts with a fresh shallow clone. If the repair completes, however, it is
trusted without re-validation: the call immediately returns success, even when
the repaired cache is still invalid. -/
theorem c1_amended_repair_policy (env : RemoteEnv) (ref : String) (g : GitRepoState)
    (hh : env.hiddenDirOk = true)
    (hcur : getCachedVersion (CacheDir.repo g) = some ref)
    (hinv : isValidCache (CacheDir.repo g) = false) :
    (g.resetOk = true → g.cleanOk = true →
      ensureStackAvailable env ref false (CacheDir.repo g) 2 =
        some (true, CacheDir.repo (repairedState g), [GitOp.reset, GitOp.clean])) ∧
    ((g.resetOk = false ∨ g.cleanOk = false) → env.removeOk = true →
      ensureStackAvailable env ref false (CacheDir.repo g) 2 =
        some ((pullStack env).1, (pullStack env).2.1,
          (repairCache (CacheDir.repo g)).2.2 ++ GitOp.remove :: (pullStack env).2.2)) := by
  constructor
  · intro hr hc
    show ensureStackAvailable env ref false (CacheDir.repo g) (1 + 1) = _
    simp [ensureStackAvailable, hh, hcur, hinv, repairCache, hr, hc]
  · intro hfail hrm
    show ensureStackAvailable env ref false (CacheDir.repo g) (1 + 1) = _
    rcases hfail with hf | hf <;>
      simp [ensureStackAvailable, hh, hcur, hinv, repairCache, hf, hrm] <;>
      (repeat' split) <;> simp_all [pullStack]

/-- Witness for `c1_amended_repair_policy` at a concrete input. -/
theorem c1_amended_repair_policy_witness :
    envAllOk.hiddenDirOk = true ∧
    getCachedVersion (CacheDir.repo repoNoSubdirsInHead) = some "v1" ∧
    isValidCache (CacheDir.repo repoNoSubdirsInHead) = false ∧
    repoNoSubdirsInHead.resetOk = true ∧ repoNoSubdirsInHead.cleanOk = true ∧
    ensureStackAvailable envAllOk "v1" false (CacheDir.repo repoNoSubdirsInHead) 2 =
      some (true, CacheDir.repo (repairedState repoNoSubdirsInHead),
        [GitOp.reset, GitOp.clean]) :=
  ⟨by decide, by decide, by decide, by decide, by decide,
    (c1_amended_repair_policy envAllOk "v1" repoNoSubdirsInHead (by decide) (by decide)
      (by decide)).1 (by decide) (by decide)⟩

/-- A cache on the requested ref with uncommitted tracked modifications whose
required subdirectories are restorable from HEAD, but whose
`git reset --hard HEAD` fails. -/
def dirtyRepoResetFails : GitRepoState :=
  { headRef := "main", shortHash := "abc1234", abbrevOk := true, shortOk := true,
    statusOk := true, modified := true, untracked := false, subdirsPresent := true,
    headHasSubdirs := true, resetOk := false, cleanOk := true }

/-- A freshly cloned working copy that is clean but lacks the required
`stack/apps` and `stack/templates` subdirectories, so `isValidCache` rejects
it. -/
def cloneWithoutSubdirs : GitRepoState :=
  { headRef := "main", shortHash := "def5678", abbrevOk := true, shortOk := true,
    statusOk := true, modified := false, untracked := false, subdirsPresent := false,
    headHasSubdirs := false, resetOk := true, cleanOk := true }

/-- Environment in which every external operation succeeds but a fresh clone
yields `cloneWithoutSubdirs`. -/
def envCloneNoSubdirs : RemoteEnv :=
  { hiddenDirOk := true, gitOnPath := true, mkdirOk := true, cloneOk := true,
    cloneResult := cloneWithoutSubdirs, fetchOk := true, checkoutOk := true,
    switchResult := cloneWithoutSubdirs, removeOk := true }

/-- C2 counterexample: a same-ref cache with uncommitted local modifications
and subdirectories restorable from HEAD. The repair's `git reset` errors, so
the cache is deleted and re-cloned — and the fresh clone is returned as
success *without validation*, here leaving a final state `isValidCache`
rejects. So `EnsureStackAvailable` can return without error with the
invariants broken. -/
theorem c2_counterexample :
    getCachedVersion (CacheDir.repo dirtyRepoResetFails) = some "main" ∧
    dirtyRepoResetFails.modified = true ∧
    dirtyRepoResetFails.headHasSubdirs = true ∧
    ensureStackAvailable envCloneNoSubdirs "main" false (CacheDir.repo dirtyRepoResetFails) 2 =
      some (true, CacheDir.repo cloneWithoutSubdirs,
        [GitOp.reset, GitOp.remove, GitOp.clone]) ∧
    isValidCache (CacheDir.repo cloneWithoutSubdirs) = false := by
  decide

/-- C2 (amended): for a cache on the requested ref whose `git status` works,
whose working tree has uncommitted modifications, whose required
subdirectories are restorable from HEAD, *and whose repair commands (reset,
clean) succeed*, a call `EnsureStackAvailable(source, ref, false)` that
returns without error leaves the cache in a state that `isValidCache`
accepts. (Without the repair-success assumption the delete-and-reclone path
can return an unvalidated fresh clone, see the counterexample.) -/
theorem c2_amended_repair_restores_invariants (env : RemoteEnv) (ref : String)
    (g : GitRepoState)
    (hcur : getCachedVersion (CacheDir.repo g) = some ref)
    (hstat : g.statusOk = true)
    (hdirty : g.modified = true ∨ g.untracked = true)
    (hsub : g.headHasSubdirs = true)
    (hreset : g.resetOk = true) (hclean : g.cleanOk = true) :
    ∀ d t, ensureStackAvailable env ref false (CacheDir.repo g) 2 = some (true, d, t) →
      isValidCache d = true := by
  intro d t h
  rw [show (2 : Nat) = 1 + 1 from rfl] at h
  by_cases hh : env.hiddenDirOk = true
  · have hinv : isValidCache (CacheDir.repo g) = false := by
      rcases hdirty with hd | hd <;> simp [isValidCache, hd]
    have hres : ensureStackAvailable env ref false (CacheDir.repo g) (1 + 1) =
        some (true, CacheDir.repo (repairedState g), [GitOp.reset, GitOp.clean]) := by
      simp [ensureStackAvailable, hh, hcur, hinv, repairCache, hreset, hclean]
    rw [hres] at h
    simp only [Option.some.injEq, Prod.mk.injEq, true_and] at h
    obtain ⟨rfl, -⟩ := h
    simp [isValidCache, repairedState, hstat, hsub]
  · have hres : ensureStackAvailable env ref false (CacheDir.repo g) (1 + 1) =
        some (false, CacheDir.repo g, []) := by
      simp [ensureStackAvailable, hh]
    rw [hres] at h
    simp at h

/-- A same-ref cache with an untracked file, repairable (reset/clean succeed)
and with the required subdirectories in HEAD. -/
def dirtyRepairableRepo : GitRepoState :=
  { headRef := "main", shortHash := "abc1234", abbrevOk := true, shortOk := true,
    statusOk := true, modified := false, untracked := true, subdirsPresent := true,
    headHasSubdirs := true, resetOk := true, cleanOk := true }

/-- Witness for `c2_amended_repair_restores_invariants` at a concrete input. -/
theorem c2_amended_repair_restores_invariants_witness :
    getCachedVersion (CacheDir.repo dirtyRepairableRepo) = some "main" ∧
    dirtyRepairableRepo.untracked = true ∧
    ensureStackAvailable envAllOk "main" false (CacheDir.repo dirtyRepairableRepo) 2 =
      some (true, CacheDir.repo (repairedState dirtyRepairableRepo), [GitOp.reset, GitOp.clean]) ∧
    isValidCache (CacheDir.repo (repairedState dirtyRepairableRepo)) = true :=
  ⟨by decide, by decide, by decide,
    c2_amended_repair_restores_invariants envAllOk "main" dirtyRepairableRepo (by decide)
      (by decide) (Or.inr (by decide)) (by decide) (by decide) (by decide)
      (CacheDir.repo (repairedState dirtyRepairableRepo)) [GitOp.reset, GitOp.clean]
      (by decide)⟩

/-- The working copy a shallow clone of a *tag* produces: detached HEAD, so
`git rev-parse --abbrev-ref HEAD` prints `HEAD` and `getCachedVersion` falls
back to the short commit hash. The tree is clean and complete. -/
def detachedTagClone : GitRepoState :=
  { headRef := "HEAD", shortHash := "abc1234", abbrevOk := true, shortOk := true,
    statusOk := true, modified := false, untracked := false, subdirsPresent := true,
    headHasSubdirs := true, resetOk := true, cleanOk := true }

/-- Environment for a stack pinned to tag `v1.0`: cloning and switching both
yield the detached working copy. -/
def envTagClone : RemoteEnv :=
  { hiddenDirOk := true, gitOnPath := true, mkdirOk := true, cloneOk := true,
    cloneResult := detachedTagClone, fetchOk := true, checkoutOk := true,
    switchResult := detachedTagClone, removeOk := true }

/-- C3 counterexample: with `ref` a tag (`v1.0`), the first call clones and
succeeds, leaving a detached HEAD whose `getCachedVersion` is the short hash
`abc1234 ≠ v1.0`. The second call on the untouched cache therefore takes the
version-switch path and performs `fetch`, `checkout` and `pull` — repository
mutations — contradicting the claim that the second call is pure validation
for every source and ref. -/
theorem c3_counterexample :
    ensureStackAvailable envTagClone "v1.0" false CacheDir.missing 2 =
      some (true, CacheDir.repo detachedTagClone, [GitOp.clone]) ∧
    ensureStackAvailable envTagClone "v1.0" false (CacheDir.repo detachedTagClone) 2 =
      some (true, CacheDir.repo detachedTagClone,
        [GitOp.fetch, GitOp.checkout, GitOp.pull]) := by
  decide

/-- C3 (amended): the second call is mutation-free exactly in the branch case.
If the fresh clone leaves the cache checked out on a branch whose name equals
the requested ref and the cloned cache is valid, then a first call from a
missing cache succeeds, and a second call on the resulting cache performs no
repository mutation at all (empty mutation trace — no clone, fetch, checkout,
pull, reset, clean or delete) and returns success. For a tag or commit ref the
current ref reported by git is the short hash, which differs from the
requested ref, and the second call instead fetches and checks out (see the
counterexample). -/
theorem c3_amended_branch_idempotent (env : RemoteEnv) (ref : String)
    (hh : env.hiddenDirOk = true)
    (hgit : env.gitOnPath = true) (hmk : env.mkdirOk = true) (hclone : env.cloneOk = true)
    (hbr : env.cloneResult.headRef = ref) (hnotHEAD : ref ≠ "HEAD")
    (habbrev : env.cloneResult.abbrevOk = true)
    (hval : isValidCache (CacheDir.repo env.cloneResult) = true) :
    ensureStackAvailable env ref false CacheDir.missing 2 =
      some (true, CacheDir.repo env.cloneResult, [GitOp.clone]) ∧
    ensureStackAvailable env ref false (CacheDir.repo env.cloneResult) 2 =
      some (true, CacheDir.repo env.cloneResult, []) := by
  constructor
  · rw [show (2 : Nat) = 1 + 1 from rfl, ensure_missing_eq]
    simp [pullStack, hh, hgit, hmk, hclone]
  · show ensureStackAvailable env ref false (CacheDir.repo env.cloneResult) (1 + 1) = _
    simp [ensureStackAvailable, hh, getCachedVersion, habbrev, hbr, hnotHEAD, hval]

/-- The working copy a shallow clone of branch `main` produces: HEAD on the
branch, clean and complete. -/
def branchClone : GitRepoState :=
  { headRef := "main", shortHash := "abc1234", abbrevOk := true, shortOk := true,
    statusOk := true, modified := false, untracked := false, subdirsPresent := true,
    headHasSubdirs := true, resetOk := true, cleanOk := true }

/-- Environment for a stack pinned to branch `main`. -/
def envBranchClone : RemoteEnv :=
  { hiddenDirOk := true, gitOnPath := true, mkdirOk := true, cloneOk := true,
    cloneResult := branchClone, fetchOk := true, checkoutOk := true,
    switchResult := branchClone, removeOk := true }

/-- Witness for `c3_amended_branch_idempotent` at a concrete input: a stack
pinned to branch `main`. -/
theorem c3_amended_branch_idempotent_witness :
    envBranchClone.cloneResult.headRef = "main" ∧
    isValidCache (CacheDir.repo envBranchClone.cloneResult) = true ∧
    ensureStackAvailable envBranchClone "main" false CacheDir.missing 2 =
      some (true, CacheDir.repo envBranchClone.cloneResult, [GitOp.clone]) ∧
    ensureStackAvailable envBranchClone "main" false (CacheDir.repo envBranchClone.cloneResult) 2 =
      some (true, CacheDir.repo envBranchClone.cloneResult, []) := by
  refine ⟨by decide, by decide, ?_⟩
  have h := c3_amended_branch_idempotent envBranchClone "main" (by decide) (by decide)
    (by decide) (by decide) (by decide) (by decide) (by decide) (by decide)
  exact h

/-! ## Site data model and schema validator (`internal/config/site.go`,
`internal/cli/vendor.go`) -/

/-- A dynamically typed YAML value, as Go's `yaml.Unmarshal` produces into
`interface{}`: strings, booleans, integers (`int`/`int64`), floats
(`float64`, payload irrelevant to validation so omitted), null, sequences,
and string-keyed maps (`map[string]interface{}`, modelled as an association
list). -/
inductive GoValue where
  | str (s : String)
  | boolean (b : Bool)
  | intV (n : Int)
  | floatV
  | nullV
  | arr (elems : List GoValue)
  | obj (fields : List (String × GoValue))

/-- Whether a value is a `map[string]interface{}` (the type assertion
`val.(map[string]interface{})` in Go). -/
def isObjValue : GoValue → Bool
  | GoValue.obj _ => true
  | _ => false

/-- `Component` (site config): enabled flag, project, namespace (field
`nspace`, since `namespace` is a Lean keyword) and the arbitrary nested
values map. -/
structure Component where
  enabled : Bool
  project : String
  nspace : String
  values : List (String × GoValue)

/-- `ValueSchema` (config): declarative validation rule for one value field. -/
structure ValueSchema where
  type : String
  required : Bool
  format : String
  description : String
  exampleVal : String
deriving DecidableEq, Repr

/-- `ComponentSchema` (config): named schema with per-field rules (Go map
modelled as an association list in iteration order). -/
structure ComponentSchema where
  componentName : String
  values : List (String × ValueSchema)
deriving DecidableEq, Repr

/-- Splitting a character list at every occurrence of a separator. -/
def splitChar (sep : Char) : List Char → List (List Char)
  | [] => [[]]
  | c :: rest =>
    if c = sep then [] :: splitChar sep rest
    else
      match splitChar sep rest with
      | [] => [[c]]
      | h :: t => (c :: h) :: t

/-- Go `strings.Split` with a one-character separator: always at least one
part, empty parts kept (`Split("", ".") = [""]`, `Split("a..b", ".") =
["a", "", "b"]`). -/
def goSplit (s : String) (sep : Char) : List String :=
  (splitChar sep s.data).map String.mk

/-- Go map indexing `current[part]` on the association-list model. -/
def lookupVal (m : List (String × GoValue)) (k : String) : Option GoValue :=
  (m.find? (fun e => e.1 == k)).map (fun e => e.2)

/-- The loop of `getNestedValue` (vendor.go) over the split path parts:
descend through nested maps; a missing key or a non-map intermediate value
returns not-found. -/
def goNested : List (String × GoValue) → List String → Option GoValue
  | _, [] => none
  | m, [p] => lookupVal m p
  | m, p :: rest =>
      match lookupVal m p with
      | none => none
      | some (GoValue.obj m') => goNested m' rest
      | some _ => none

/-- `getNestedValue` (vendor.go): dot-separated nested lookup into the values
map. -/
def getNestedValue (values : List (String × GoValue)) (path : String) : Option GoValue :=
  goNested values (goSplit path '.')

/-- Go `strconv.Atoi`: optional single `+`/`-` sign followed by at least one
decimal digit. Go additionally errors on int64 overflow; every use here
compares the result against 0..255, so out-of-window values are rejected
either way and the range error is not modelled. -/
def goAtoi (s : String) : Option Int :=
  match s.data with
  | [] => none
  | c :: cs =>
    let ds := if c = '-' ∨ c = '+' then cs else c :: cs
    if ds.isEmpty then none
    else if ds.all Char.isDigit then
      let mag : Nat := ds.foldl (fun a d => 10 * a + (d.toNat - '0'.toNat)) 0
      some (if c = '-' then -(mag : Int) else (mag : Int))
    else none

/-- `isValidIPv4` (vendor.go): four dot-separated parts, each an `Atoi`-parsed
integer in 0..255. -/
def isValidIPv4 (ip : String) : Bool :=
  let parts := goSplit ip '.'
  parts.length == 4 &&
    parts.all (fun part =>
      match goAtoi part with
      | some num => decide (0 ≤ num) && decide (num ≤ 255)
      | none => false)

/-- `isValidHostname` (vendor.go): nonempty and at most 253 bytes
(Go `len` counts bytes). -/
def isValidHostname (hostname : String) : Bool :=
  decide (0 < hostname.utf8ByteSize) && decide (hostname.utf8ByteSize ≤ 253)

/-- `isValidEmail` (vendor.go): contains `@` (a one-character substring is
contained iff the character occurs) and longer than 3 bytes. -/
def isValidEmail (email : String) : Bool :=
  email.data.contains '@' && decide (3 < email.utf8ByteSize)

/-- A validation error, tagging the distinct messages `vendor.go` formats:
required-but-absent (with the schema's description and example), type
mismatch (with the expected type), and string-format violation (with the
format name and offending value). -/
inductive VErr where
  | requiredMissing (fieldPath description exampleVal : String)
  | typeMismatch (fieldPath expected : String)
  | invalidFormat (fieldPath format value : String)
deriving DecidableEq, Repr

/-- `validateFieldValue` (vendor.go): type check against the declared
primitive type; for strings additionally the optional format heuristic.
Unknown declared types validate nothing. -/
def validateFieldValue (fieldPath : String) (value : GoValue) (schema : ValueSchema) :
    List VErr :=
  match schema.type with
  | "string" =>
      match value with
      | GoValue.str sv =>
          match schema.format with
          | "ipv4" => if !isValidIPv4 sv then [VErr.invalidFormat fieldPath "ipv4" sv] else []
          | "hostname" =>
              if !isValidHostname sv then [VErr.invalidFormat fieldPath "hostname" sv] else []
          | "email" => if !isValidEmail sv then [VErr.invalidFormat fieldPath "email" sv] else []
          | _ => []
      | _ => [VErr.typeMismatch fieldPath "string"]
  | "boolean" =>
      match value with
      | GoValue.boolean _ => []
      | _ => [VErr.typeMismatch fieldPath "boolean"]
  | "number" =>
      match value with
      | GoValue.intV _ => []
      | GoValue.floatV => []
      | _ => [VErr.typeMismatch fieldPath "number"]
  | "object" =>
      match value with
      | GoValue.obj _ => []
      | _ => [VErr.typeMismatch fieldPath "object"]
  | _ => []

/-- The per-field body of `validateComponent`'s loop: required-but-absent is
an error, absent-but-optional validates nothing, present values go through
`validateFieldValue`. -/
def fieldValidation (componentName : String) (values : List (String × GoValue))
    (fieldEntry : String × ValueSchema) : List VErr :=
  let fieldPath := componentName ++ ".values." ++ fieldEntry.1
  match getNestedValue values fieldEntry.1 with
  | none =>
      if fieldEntry.2.required then
        [VErr.requiredMissing fieldPath fieldEntry.2.description fieldEntry.2.exampleVal]
      else []
  | some v => validateFieldValue fieldPath v fieldEntry.2

/-- `validateComponent` (vendor.go): fold the per-field checks over the
schema's declared fields, accumulating errors. -/
def validateComponent (componentName : String) (component : Component)
    (schema : ComponentSchema) : List VErr :=
  schema.values.foldl
    (fun errors fieldEntry => errors ++ fieldValidation componentName component.values fieldEntry)
    []

/-- Go map indexing `schemas[componentName]`. -/
def lookupSchema (schemas : List (String × ComponentSchema)) (n : String) :
    Option ComponentSchema :=
  (schemas.find? (fun e => e.1 == n)).map (fun e => e.2)

/-- One iteration of the accumulation loop of `validateSiteAgainstSchemas`
(vendor.go): disabled components and components without a schema are skipped,
all other components' errors are appended. -/
def collectStep (schemas : List (String × ComponentSchema)) (allErrors : List VErr)
    (entry : String × Component) : List VErr :=
  if !entry.2.enabled then allErrors
  else
    match lookupSchema schemas entry.1 with
    | none => allErrors
    | some schema => allErrors ++ validateComponent entry.1 entry.2 schema

/-- The error-accumulation loop of `validateSiteAgainstSchemas` (vendor.go). -/
def collectValidationErrors (schemas : List (String × ComponentSchema))
    (catalog : List (String × Component)) : List VErr :=
  catalog.foldl (collectStep schemas) []

/-- Result of `validateSiteAgainstSchemas`: success, schema-discovery failure,
or one aggregate error carrying every accumulated validation error. -/
inductive ValidateResult where
  | ok
  | discoveryError (msg : String)
  | aggregateError (errs : List VErr)
deriving DecidableEq, Repr

/-- `validateSiteAgainstSchemas` (vendor.go). Schema discovery walks an
embedded filesystem and is passed in as its outcome. No schemas at all skips
validation; otherwise all errors are accumulated and returned together. -/
def validateSiteAgainstSchemas (discovered : Except String (List (String × ComponentSchema)))
    (catalog : List (String × Component)) : ValidateResult :=
  match discovered with
  | Except.error e => ValidateResult.discoveryError e
  | Except.ok schemas =>
      if schemas.isEmpty then ValidateResult.ok
      else
        let allErrors : List VErr := collectValidationErrors schemas catalog
        if !allErrors.isEmpty then ValidateResult.aggregateError allErrors
        else ValidateResult.ok

theorem foldl_append_flatMap {α β : Type} (f : α → List β) (l : List α) (acc : List β) :
    l.foldl (fun a x => a ++ f x) acc = acc ++ l.flatMap f := by
  induction l generalizing acc with
  | nil => simp
  | cons hd tl ih => simp [ih, List.append_assoc]

/-- `validateComponent` is the concatenation of the per-field checks, in
schema order. -/
theorem validateComponent_eq_flatMap (n : String) (c : Component) (s : ComponentSchema) :
    validateComponent n c s = s.values.flatMap (fieldValidation n c.values) := by
  simpa [validateComponent] using foldl_append_flatMap (fieldValidation n c.values) s.values []

/-- Per-entry contribution of the validation loop: nothing for disabled or
schema-less components, the component's full error list otherwise. -/
def componentContribution (schemas : List (String × ComponentSchema))
    (entry : String × Component) : List VErr :=
  if !entry.2.enabled then []
  else
    match lookupSchema schemas entry.1 with
    | none => []
    | some schema => validateComponent entry.1 entry.2 schema

theorem collectStep_eq (schemas : List (String × ComponentSchema)) (acc : List VErr)
    (entry : String × Component) :
    collectStep schemas acc entry = acc ++ componentContribution schemas entry := by
  cases he : entry.2.enabled <;>
    simp [collectStep, componentContribution, he] <;>
      cases hs : lookupSchema schemas entry.1 <;> simp

theorem collect_eq_flatMap (schemas : List (String × ComponentSchema))
    (catalog : List (String × Component)) :
    collectValidationErrors schemas catalog =
      catalog.flatMap (componentContribution schemas) := by
  suffices h : ∀ acc, catalog.foldl (collectStep schemas) acc
      = acc ++ catalog.flatMap (componentContribution schemas) by
    simpa [collectValidationErrors] using h []
  induction catalog with
  | nil => simp
  | cons hd tl ih =>
    intro acc
    simp only [List.foldl_cons, collectStep_eq, List.flatMap_cons, ih, List.append_assoc]

theorem contribution_filter (schemas : List (String × ComponentSchema))
    (catalog : List (String × Component)) :
    catalog.flatMap (componentContribution schemas) =
      (catalog.filter (fun e => e.2.enabled && (lookupSchema schemas e.1).isSome)).flatMap
        (fun e =>
          match lookupSchema schemas e.1 with
          | some schema => validateComponent e.1 e.2 schema
          | none => []) := by
  induction catalog with
  | nil => simp
  | cons hd tl ih =>
    cases he : hd.2.enabled <;>
      cases hs : lookupSchema schemas hd.1 <;>
        simp [componentContribution, he, hs, ih, List.filter_cons]

/-- C8: the schema validation pass validates exactly the enabled components
with a matching discovered schema — the accumulated list is the concatenated
error lists of precisely those components (disabled and schema-less
components are skipped without error) — and it never fails fast: the pass
returns `ok` iff the accumulated list is empty, and otherwise returns the
whole accumulated list as one aggregate error. -/
theorem c8_aggregate_validation (schemas : List (String × ComponentSchema))
    (catalog : List (String × Component)) :
    collectValidationErrors schemas catalog =
      (catalog.filter (fun e => e.2.enabled && (lookupSchema schemas e.1).isSome)).flatMap
        (fun e =>
          match lookupSchema schemas e.1 with
          | some schema => validateComponent e.1 e.2 schema
          | none => []) ∧
    validateSiteAgainstSchemas (Except.ok schemas) catalog =
      (if collectValidationErrors schemas catalog = [] then ValidateResult.ok
       else ValidateResult.aggregateError (collectValidationErrors schemas catalog)) := by
  constructor
  · rw [collect_eq_flatMap, contribution_filter]
  · by_cases hs : schemas = []
    · subst hs
      have hc : collectValidationErrors [] catalog = [] := by
        rw [collect_eq_flatMap]
        induction catalog with
        | nil => simp
        | cons hd tl ih => simp [componentContribution, lookupSchema, ih]
      simp [validateSiteAgainstSchemas, hc]
    · by_cases hc : collectValidationErrors schemas catalog = [] <;>
        simp [validateSiteAgainstSchemas, hs, hc, List.isEmpty_iff]

theorem octet_ok_iff (p : String) :
    (match goAtoi p with
      | some num => decide (0 ≤ num) && decide (num ≤ 255)
      | none => false) = true ↔
      ∃ n : Int, goAtoi p = some n ∧ 0 ≤ n ∧ n ≤ 255 := by
  cases h : goAtoi p <;> simp [h]

/-- C9: the string-format validators implement exactly the spec's heuristics.
`isValidIPv4` accepts iff the string has four dot-separated parts, each
`Atoi`-parsing to an integer in 0..255; `isValidHostname` accepts iff the
length (in bytes, Go `len`) is in 1..253; `isValidEmail` accepts iff the
string contains `@` and its length exceeds 3. -/
theorem c9_format_validators (s : String) :
    (isValidIPv4 s = true ↔
      ((goSplit s '.').length = 4 ∧
        ∀ p ∈ goSplit s '.', ∃ n : Int, goAtoi p = some n ∧ 0 ≤ n ∧ n ≤ 255)) ∧
    (isValidHostname s = true ↔ (0 < s.utf8ByteSize ∧ s.utf8ByteSize ≤ 253)) ∧
    (isValidEmail s = true ↔ ('@' ∈ s.data ∧ 3 < s.utf8ByteSize)) := by
  refine ⟨?_, ?_, ?_⟩
  · simp [isValidIPv4, List.all_eq_true, octet_ok_iff]
  · simp [isValidHostname]
  · simp [isValidEmail]

/-- C10: a dot-path lookup whose intermediate step is missing or hits a
non-map value reports the field as absent. The first conjunct characterises
one step of the descent (the lookup result bubbles up unchanged, so a failure
at any depth yields `none`); the next two are the missing-key and
scalar-intermediate cases; the last two show the consequence in
`validateComponent`: an absent field contributes exactly a
required-field-missing error when required — never a type mismatch — and no
error at all when optional. -/
theorem c10_absent_path_policy (m : List (String × GoValue)) (p : String)
    (rest : List String) (hrest : rest ≠ []) :
    (goNested m (p :: rest) =
      (match lookupVal m p with
        | some (GoValue.obj inner) => goNested inner rest
        | _ => none)) ∧
    (lookupVal m p = none → goNested m (p :: rest) = none) ∧
    (∀ v, lookupVal m p = some v → isObjValue v = false → goNested m (p :: rest) = none) ∧
    (∀ (name : String) (c : Component) (schema : ComponentSchema),
      validateComponent name c schema = schema.values.flatMap (fieldValidation name c.values)) ∧
    (∀ (name : String) (values : List (String × GoValue)) (fieldName : String)
        (fs : ValueSchema), getNestedValue values fieldName = none →
      fieldValidation name values (fieldName, fs) =
        if fs.required then
          [VErr.requiredMissing (name ++ ".values." ++ fieldName) fs.description fs.exampleVal]
        else []) := by
  obtain ⟨r, rs, rfl⟩ := List.exists_cons_of_ne_nil hrest
  refine ⟨?_, ?_, ?_, ?_, ?_⟩
  · cases hl : lookupVal m p with
    | none => simp [goNested, hl]
    | some v => cases v <;> simp [goNested, hl]
  · intro h; simp [goNested, h]
  · intro v hv hobj
    cases v <;> simp_all [goNested, isObjValue]
  · exact validateComponent_eq_flatMap
  · intro name values fieldName fs h
    simp [fieldValidation, h]

/-- Witness for `c10_absent_path_policy`: the map `{cloudflare: "tok"}` holds
a scalar where the path `cloudflare.apiToken` expects a map, so the lookup is
absent, a required field reports required-missing, an optional one nothing. -/
theorem c10_absent_path_policy_witness :
    goNested [("cloudflare", GoValue.str "tok")] ["cloudflare", "apiToken"] = none ∧
    fieldValidation "external-dns" [("cloudflare", GoValue.str "tok")]
      ("cloudflare.apiToken",
        { type := "string", required := true, format := "", description := "API token",
          exampleVal := "abc" }) =
      [VErr.requiredMissing "external-dns.values.cloudflare.apiToken" "API token" "abc"] ∧
    fieldValidation "external-dns" [("cloudflare", GoValue.str "tok")]
      ("cloudflare.apiToken",
        { type := "string", required := false, format := "", description := "API token",
          exampleVal := "abc" }) = [] := by
  have T := c10_absent_path_policy [("cloudflare", GoValue.str "tok")] "cloudflare"
    ["apiToken"] (by simp)
  refine ⟨T.2.2.1 (GoValue.str "tok") rfl rfl, ?_, ?_⟩
  · rw [T.2.2.2.2 "external-dns" [("cloudflare", GoValue.str "tok")] "cloudflare.apiToken"
      _ rfl]
    decide
  · rw [T.2.2.2.2 "external-dns" [("cloudflare", GoValue.str "tok")] "cloudflare.apiToken"
      _ rfl]
    decide

/-! ## Generate command (`internal/cli/generate.go`)

Filesystem paths are segment lists (`filepath.Join` of clean, separator-free
segments); `clusters/<name>/apps/<project>/<namespace>/<component>` is the
6-segment list `["clusters", name, "apps", project, namespace, component]`.
Template reading, parsing and execution (the header/base/component inheritance
pipeline) is abstracted by environment functions returning the rendered
content, or `none` for any of the read/parse/execute/create failures — the
claims below concern which files are written where, not template contents.
The infra phase of the command writes only under `clusters/<name>/infra` and
is independent of the apps tree these claims quantify over. -/

/-- A filesystem path as a list of segments. -/
abbrev FsPath := List String

/-- Output-tree state: files (path to content, no duplicate paths thanks to
write-replacing) and the directories created so far, plus the log of
`RenderTemplate`/`RenderKustomizationTemplate` calls (template, output). -/
structure GenState where
  files : List (FsPath × String)
  dirs : List FsPath
  renders : List (FsPath × FsPath)
deriving DecidableEq, Repr

/-- `os.Stat` existence check on a file. -/
def statFile (st : GenState) (p : FsPath) : Bool :=
  st.files.any (fun e => e.1 == p)

/-- `os.Create` + write: truncate-on-write, replacing any previous content. -/
def fsWrite (st : GenState) (p : FsPath) (content : String) : GenState :=
  { st with files := (p, content) :: st.files.filter (fun e => e.1 ≠ p) }

/-- Content of a file, if present. -/
def fsLookup (st : GenState) (p : FsPath) : Option String :=
  (st.files.find? (fun e => e.1 == p)).map (fun e => e.2)

/-- `os.MkdirAll`. -/
def mkdirAll (st : GenState) (p : FsPath) : GenState :=
  { st with dirs := p :: st.dirs }

/-- `os.RemoveAll`: drops every file and directory at or below `p`. -/
def removeTree (st : GenState) (p : FsPath) : GenState :=
  { st with
    files := st.files.filter (fun e => !(p.isPrefixOf e.1)),
    dirs := st.dirs.filter (fun d => !(p.isPrefixOf d)) }

/-- `copyDir`: create the destination directory and write every file of the
source tree (given as relative path & content pairs) below it. -/
def copyTree (st : GenState) (dest : FsPath) (tree : List (FsPath × String)) : GenState :=
  tree.foldl (fun s e => fsWrite s (dest ++ e.1) e.2) (mkdirAll st dest)

/-- Append one render call to the log. -/
def recordRender (st : GenState) (tmpl out : FsPath) : GenState :=
  { st with renders := st.renders ++ [(tmpl, out)] }

/-- Per-run environment of the generate command's apps loop. All functions are
keyed by the component name where relevant.
* `baseExists` / `baseFiles`: presence and contents of
  `stack/apps/<name>/base` in the cache;
* `tmplDirExists` / `walkEntries` / `walkOk`: the component's
  `stack/apps/<name>/templates` directory, its recursive walk (entries as
  paths relative to the cache's `stack` directory, with an is-directory flag)
  and whether the walk succeeds;
* `renderOut`: outcome of rendering a template for a component
  (`RenderTemplate` / `RenderKustomizationTemplate`), `none` on any error;
* `rootKOut`, `customKOut`, `customValuesOut`: outcomes of
  `createRootKustomization`, `createCustomKustomizationTemplate`,
  `createCustomValuesTemplate`. -/
structure GenEnv where
  baseExists : String → Bool
  baseFiles : String → List (FsPath × String)
  tmplDirExists : String → Bool
  walkEntries : String → List (FsPath × Bool)
  walkOk : String → Bool
  renderOut : FsPath → String → Option String
  rootKOut : String → Option String
  customKOut : Option String
  customValuesOut : Option String

/-- `clusters/<cluster>/apps/<project>/<namespace>/<component>`. -/
def componentPath (cluster project nspace name : String) : FsPath :=
  ["clusters", cluster, "apps", project, nspace, name]

/-- Go `strings.HasSuffix`, on the character lists. -/
def goHasSuffix (s suf : String) : Bool :=
  suf.data.isSuffixOf s.data

/-- Whether a walked path has the `.tmpl` filename suffix. A `.tmpl` suffix of
the whole path string is exactly a `.tmpl` suffix of its last segment, since
the suffix contains no separator. -/
def endsWithTmpl (p : FsPath) : Bool :=
  goHasSuffix (p.getLastD "") ".tmpl"

/-- Go `strings.TrimSuffix`: drop a matching suffix, otherwise return the
string unchanged. -/
def trimSuffix (s suf : String) : String :=
  if goHasSuffix s suf then String.mk (s.data.take (s.data.length - suf.data.length)) else s

/-- Go `filepath.Base` on a clean nonempty path: its last segment. -/
def goBase (p : FsPath) : String := p.getLastD ""

/-- The `.tmpl` files found by walking the component's templates directory. -/
def discoveredTemplates (env : GenEnv) (name : String) : List FsPath :=
  ((env.walkEntries name).filter (fun e => !e.2 && endsWithTmpl e.1)).map (fun e => e.1)

/-- `FindAppTemplates` (generate.go): empty when the templates directory does
not exist, the walked `.tmpl` files otherwise; `none` models a walk error. -/
def FindAppTemplates (env : GenEnv) (name : String) : Option (List FsPath) :=
  if !env.tmplDirExists name then some []
  else if !env.walkOk name then none
  else some (discoveredTemplates env name)

/-- `copyAppBase` (generate.go): require the app base in the cache and a
nonempty project and namespace, then replace
`clusters/<c>/apps/<p>/<ns>/<name>/base` with the cached tree. -/
def copyAppBase (env : GenEnv) (cluster name : String) (c : Component) (st : GenState) :
    GenState × Option String :=
  if !env.baseExists name then (st, some "app base not found in cache")
  else if c.project = "" then (st, some "project is required")
  else if c.nspace = "" then (st, some "namespace is required")
  else
    let destPath := componentPath cluster c.project c.nspace name ++ ["base"]
    (copyTree (removeTree st destPath) destPath (env.baseFiles name), none)

/-- A stat-guarded create (generate.go renders the root/custom scaffolding
only when the file does not already exist). -/
def createIfAbsent (st : GenState) (p : FsPath) (out : Option String) :
    GenState × Option String :=
  if statFile st p then (st, none)
  else
    match out with
    | none => (st, some "template error")
    | some content => (fsWrite st p content, none)

/-- The render loop over the component's discovered templates: each template
is rendered into `generated/` under its base name with the `.tmpl` suffix
stripped; the first error aborts. -/
def renderTemplates (env : GenEnv) (name : String) (generatedPath : FsPath) :
    List FsPath → GenState → GenState × Option String
  | [], st => (st, none)
  | t :: ts, st =>
      let outPath := generatedPath ++ [trimSuffix (goBase t) ".tmpl"]
      match env.renderOut t name with
      | none => (st, some "render failed")
      | some content =>
          renderTemplates env name generatedPath ts
            (recordRender (fsWrite st outPath content) t outPath)

/-- Sequencing with Go's early-return-on-error: a failed step aborts with its
state and error, a successful step passes its state on. -/
def seqE (r : GenState × Option String) (f : GenState → GenState × Option String) :
    GenState × Option String :=
  match r with
  | (st, some e) => (st, some e)
  | (st, none) => f st

/-- The final rendering step of the loop body: the generic base template once
when no component templates were found, every component template otherwise. -/
def renderStage (env : GenEnv) (name : String) (generatedPath : FsPath)
    (st6 : GenState) : GenState × Option String :=
  match FindAppTemplates env name with
  | none => (st6, some "walk failed")
  | some tmpls =>
      if tmpls.isEmpty then
        match env.renderOut ["base.kustomization.yaml.tmpl"] name with
        | none => (st6, some "render failed")
        | some content =>
            (recordRender
              (fsWrite st6 (generatedPath ++ ["kustomization.yaml"]) content)
              ["base.kustomization.yaml.tmpl"]
              (generatedPath ++ ["kustomization.yaml"]), none)
      else renderTemplates env name generatedPath tmpls st6

/-- The loop body of the generate command for one enabled component
(generate.go lines 72-158): copy the app base, check project/namespace,
create the generated directory, conditionally create the root
`kustomization.yaml`, the `custom/` directory, `custom/values.yaml` and
`custom/kustomization.yaml`, then render either every component-specific
template or the generic base template into `generated/`. -/
def generateComponent (env : GenEnv) (cluster name : String) (c : Component)
    (st : GenState) : GenState × Option String :=
  seqE (copyAppBase env cluster name c st) (fun st1 =>
    if c.project = "" then (st1, some "project is required")
    else if c.nspace = "" then (st1, some "namespace is required")
    else
      let compPath := componentPath cluster c.project c.nspace name
      let generatedPath := compPath ++ ["generated"]
      let customPath := compPath ++ ["custom"]
      seqE (createIfAbsent (mkdirAll st1 generatedPath) (compPath ++ ["kustomization.yaml"])
          (env.rootKOut name)) (fun st3 =>
        seqE (createIfAbsent (mkdirAll st3 customPath) (customPath ++ ["values.yaml"])
            env.customValuesOut) (fun st5 =>
          seqE (createIfAbsent st5 (customPath ++ ["kustomization.yaml"]) env.customKOut)
            (renderStage env name generatedPath))))

/-- The apps loop of the generate command over the catalog (in map iteration
order): disabled components are skipped, the first component error aborts the
run. -/
def generateApps (env : GenEnv) (cluster : String) :
    List (String × Component) → GenState → GenState × Option String
  | [], st => (st, none)
  | (name, c) :: rest, st =>
      if !c.enabled then generateApps env cluster rest st
      else
        match generateComponent env cluster name c st with
        | (st1, none) => generateApps env cluster rest st1
        | (st1, some e) => (st1, some e)

@[simp] theorem fsWrite_renders (st : GenState) (p : FsPath) (c : String) :
    (fsWrite st p c).renders = st.renders := rfl

@[simp] theorem fsWrite_dirs (st : GenState) (p : FsPath) (c : String) :
    (fsWrite st p c).dirs = st.dirs := rfl

@[simp] theorem mkdirAll_renders (st : GenState) (p : FsPath) :
    (mkdirAll st p).renders = st.renders := rfl

@[simp] theorem mkdirAll_files (st : GenState) (p : FsPath) :
    (mkdirAll st p).files = st.files := rfl

@[simp] theorem mkdirAll_dirs (st : GenState) (p : FsPath) :
    (mkdirAll st p).dirs = p :: st.dirs := rfl

@[simp] theorem removeTree_renders (st : GenState) (p : FsPath) :
    (removeTree st p).renders = st.renders := rfl

@[simp] theorem removeTree_dirs (st : GenState) (p : FsPath) :
    (removeTree st p).dirs = st.dirs.filter (fun d => !(p.isPrefixOf d)) := rfl

@[simp] theorem recordRender_renders (st : GenState) (t o : FsPath) :
    (recordRender st t o).renders = st.renders ++ [(t, o)] := rfl

@[simp] theorem recordRender_files (st : GenState) (t o : FsPath) :
    (recordRender st t o).files = st.files := rfl

@[simp] theorem recordRender_dirs (st : GenState) (t o : FsPath) :
    (recordRender st t o).dirs = st.dirs := rfl

@[simp] theorem copyTree_renders (st : GenState) (dest : FsPath)
    (tree : List (FsPath × String)) : (copyTree st dest tree).renders = st.renders := by
  suffices h : ∀ (l : List (FsPath × String)) (s : GenState),
      (l.foldl (fun s e => fsWrite s (dest ++ e.1) e.2) s).renders = s.renders by
    simpa [copyTree] using h tree (mkdirAll st dest)
  intro l
  induction l with
  | nil => intro s; rfl
  | cons hd tl ih => intro s; simpa using ih (fsWrite s (dest ++ hd.1) hd.2)

@[simp] theorem copyTree_dirs (st : GenState) (dest : FsPath)
    (tree : List (FsPath × String)) : (copyTree st dest tree).dirs = dest :: st.dirs := by
  suffices h : ∀ (l : List (FsPath × String)) (s : GenState),
      (l.foldl (fun s e => fsWrite s (dest ++ e.1) e.2) s).dirs = s.dirs by
    simpa [copyTree] using h tree (mkdirAll st dest)
  intro l
  induction l with
  | nil => intro s; rfl
  | cons hd tl ih => intro s; simpa using ih (fsWrite s (dest ++ hd.1) hd.2)

theorem seqE_none_inv {r : GenState × Option String} {f : GenState → GenState × Option String}
    {st' : GenState} (h : seqE r f = (st', none)) :
    ∃ stm, r = (stm, none) ∧ f stm = (st', none) := by
  rcases r with ⟨stm, e⟩
  cases e with
  | none => exact ⟨stm, rfl, by simpa [seqE] using h⟩
  | some msg => simp [seqE] at h

theorem seqE_inv {r : GenState × Option String} {f : GenState → GenState × Option String}
    {out : GenState × Option String} (h : seqE r f = out) :
    (∃ stm e, r = (stm, some e) ∧ out = (stm, some e)) ∨
      (∃ stm, r = (stm, none) ∧ f stm = out) := by
  rcases r with ⟨stm, e⟩
  cases e with
  | none => exact Or.inr ⟨stm, rfl, by simpa [seqE] using h⟩
  | some msg => exact Or.inl ⟨stm, msg, rfl, by simpa [seqE] using h.symm⟩

theorem copyAppBase_ok {env : GenEnv} {cluster name : String} {c : Component}
    {st st1 : GenState} (h : copyAppBase env cluster name c st = (st1, none)) :
    env.baseExists name = true ∧ c.project ≠ "" ∧ c.nspace ≠ "" ∧
      st1 = copyTree
        (removeTree st (componentPath cluster c.project c.nspace name ++ ["base"]))
        (componentPath cluster c.project c.nspace name ++ ["base"]) (env.baseFiles name) := by
  unfold copyAppBase at h
  repeat' split at h
  all_goals simp_all

theorem copyAppBase_inv {env : GenEnv} {cluster name : String} {c : Component}
    {st st1 : GenState} {e : Option String}
    (h : copyAppBase env cluster name c st = (st1, e)) :
    st1 = st ∨
      st1 = copyTree
        (removeTree st (componentPath cluster c.project c.nspace name ++ ["base"]))
        (componentPath cluster c.project c.nspace name ++ ["base"]) (env.baseFiles name) := by
  unfold copyAppBase at h
  repeat' split at h
  all_goals simp_all

theorem createIfAbsent_states {st : GenState} {p : FsPath} {out : Option String}
    {st1 : GenState} {e : Option String} (h : createIfAbsent st p out = (st1, e)) :
    st1 = st ∨ (statFile st p = false ∧
      ∃ content, out = some content ∧ st1 = fsWrite st p content) := by
  unfold createIfAbsent at h
  repeat' split at h
  all_goals simp_all

theorem createIfAbsent_renders {st : GenState} {p : FsPath} {out : Option String}
    {st1 : GenState} {e : Option String}
    (h : createIfAbsent st p out = (st1, e)) : st1.renders = st.renders := by
  rcases createIfAbsent_states h with rfl | ⟨-, content, -, rfl⟩ <;> simp

theorem createIfAbsent_dirs {st : GenState} {p : FsPath} {out : Option String}
    {st1 : GenState} {e : Option String}
    (h : createIfAbsent st p out = (st1, e)) : st1.dirs = st.dirs := by
  rcases createIfAbsent_states h with rfl | ⟨-, content, -, rfl⟩ <;> simp

theorem createIfAbsent_ok (st : GenState) (p : FsPath) {out : Option String}
    (hsome : out.isSome = true) : (createIfAbsent st p out).2 = none := by
  rcases Option.isSome_iff_exists.mp hsome with ⟨content, rfl⟩
  by_cases hf : statFile st p <;> simp [createIfAbsent, hf]

theorem renderTemplates_renders (env : GenEnv) (name : String) (gp : FsPath) :
    ∀ (ts : List FsPath) (st st' : GenState),
      renderTemplates env name gp ts st = (st', none) →
      st'.renders = st.renders ++
        ts.map (fun t => (t, gp ++ [trimSuffix (goBase t) ".tmpl"])) := by
  intro ts
  induction ts with
  | nil => intro st st' h; cases h; simp [renderTemplates]
  | cons t rest ih =>
    intro st st' h
    unfold renderTemplates at h
    split at h
    · cases h
    · have := ih _ _ h
      simp [this]

theorem renderTemplates_dirs (env : GenEnv) (name : String) (gp : FsPath) :
    ∀ (ts : List FsPath) (st st' : GenState) (e : Option String),
      renderTemplates env name gp ts st = (st', e) → st'.dirs = st.dirs := by
  intro ts
  induction ts with
  | nil => intro st st' e h; cases h; rfl
  | cons t rest ih =>
    intro st st' e h
    unfold renderTemplates at h
    split at h
    · cases h; rfl
    · have := ih _ _ _ h
      simpa using this

theorem renderTemplates_ok (env : GenEnv) (name : String) (gp : FsPath) :
    ∀ (ts : List FsPath) (st : GenState),
      (∀ t ∈ ts, (env.renderOut t name).isSome = true) →
      ∃ st', renderTemplates env name gp ts st = (st', none) := by
  intro ts
  induction ts with
  | nil => intro st _; exact ⟨st, rfl⟩
  | cons t rest ih =>
    intro st hall
    rcases Option.isSome_iff_exists.mp (hall t (by simp)) with ⟨content, hc⟩
    rcases ih (recordRender
        (fsWrite st (gp ++ [trimSuffix (goBase t) ".tmpl"]) content) t
        (gp ++ [trimSuffix (goBase t) ".tmpl"]))
      (fun u hu => hall u (by simp [hu])) with ⟨st', h'⟩
    exact ⟨st', by simpa [renderTemplates, hc] using h'⟩

theorem renderStage_dirs {env : GenEnv} {name : String} {gp : FsPath} {st6 st' : GenState}
    {e : Option String} (h : renderStage env name gp st6 = (st', e)) : st'.dirs = st6.dirs := by
  unfold renderStage at h
  split at h
  · cases h; rfl
  · split at h
    · split at h
      · cases h; rfl
      · cases h; simp
    · exact renderTemplates_dirs env name gp _ _ _ _ h

/-- C5: for an enabled component that the generate command processes without
error, if the stack's per-component templates directory holds `.tmpl` files
then each of them — and nothing else — is rendered into the component's
`generated/` directory under its base name with the `.tmpl` suffix stripped;
with no such files the generic base template is rendered exactly once, as the
component's sole generated output `kustomization.yaml`. -/
theorem c5_component_render_selection (env : GenEnv) (cluster name : String)
    (c : Component) (st st' : GenState)
    (hdone : generateComponent env cluster name c st = (st', none)) :
    ((env.tmplDirExists name = true ∧ env.walkOk name = true ∧
        discoveredTemplates env name ≠ []) →
      st'.renders = st.renders ++ (discoveredTemplates env name).map
        (fun t => (t, componentPath cluster c.project c.nspace name ++
          ["generated", trimSuffix (goBase t) ".tmpl"]))) ∧
    ((env.tmplDirExists name = false ∨ discoveredTemplates env name = []) →
      st'.renders = st.renders ++ [(["base.kustomization.yaml.tmpl"],
        componentPath cluster c.project c.nspace name ++
          ["generated", "kustomization.yaml"])]) := by
  obtain ⟨st1, hcopy, hrest⟩ := seqE_none_inv hdone
  obtain ⟨-, hp, hn, hst1⟩ := copyAppBase_ok hcopy
  rw [if_neg hp, if_neg hn] at hrest
  obtain ⟨st3, hroot, hrest⟩ := seqE_none_inv hrest
  obtain ⟨st5, hvals, hrest⟩ := seqE_none_inv hrest
  obtain ⟨st6, hcust, hrender⟩ := seqE_none_inv hrest
  have h1 : st1.renders = st.renders := by rw [hst1]; simp
  have h3 : st3.renders = st1.renders := by
    have := createIfAbsent_renders hroot; simpa using this
  have h5 : st5.renders = st3.renders := by
    have := createIfAbsent_renders hvals; simpa using this
  have h6 : st6.renders = st5.renders := createIfAbsent_renders hcust
  have hbase : st6.renders = st.renders := by rw [h6, h5, h3, h1]
  unfold renderStage at hrender
  cases hF : FindAppTemplates env name with
  | none => rw [hF] at hrender; simp at hrender
  | some tmpls =>
    rw [hF] at hrender
    dsimp only at hrender
    constructor
    · rintro ⟨hdir, hwalk, hne⟩
      obtain rfl : tmpls = discoveredTemplates env name := by
        simp [FindAppTemplates, hdir, hwalk] at hF
        exact hF.symm
      rw [if_neg (by simpa [List.isEmpty_iff] using hne)] at hrender
      have := renderTemplates_renders env name _ _ _ _ hrender
      simp [this, hbase, List.append_assoc]
    · intro hcase
      obtain rfl : tmpls = [] := by
        unfold FindAppTemplates at hF
        split at hF
        · simp_all
        · split at hF
          · cases hF
          · rcases hcase with h | h <;> simp_all
      simp only [List.isEmpty_nil, if_pos] at hrender
      split at hrender
      · cases hrender
      · cases hrender
        simp [hbase, List.append_assoc]

/-- An empty output tree. -/
def emptyGen : GenState := { files := [], dirs := [], renders := [] }

/-- A pihole component with project `net` and namespace `dns`. -/
def piholeComp : Component :=
  { enabled := true, project := "net", nspace := "dns", values := [] }

/-- Environment for the witnesses: pihole has an app base and two
component-specific templates, every render succeeds. -/
def envGenPihole : GenEnv :=
  { baseExists := fun n => n == "pihole",
    baseFiles := fun _ => [(["deployment.yaml"], "apiVersion: v1")],
    tmplDirExists := fun n => n == "pihole",
    walkEntries := fun n =>
      if n == "pihole" then
        [(["apps", "pihole", "templates"], true),
         (["apps", "pihole", "templates", "kustomization.yaml.tmpl"], false),
         (["apps", "pihole", "templates", "secret-patch.yaml.tmpl"], false)]
      else [],
    walkOk := fun _ => true,
    renderOut := fun _ _ => some "rendered",
    rootKOut := fun _ => some "root kustomization",
    customKOut := some "custom kustomization",
    customValuesOut := some "custom values" }

/-- Witness for `c5_component_render_selection` at a concrete input: the two
pihole templates are rendered to `generated/kustomization.yaml` and
`generated/secret-patch.yaml`. -/
theorem c5_component_render_selection_witness :
    (envGenPihole.tmplDirExists "pihole" = true ∧ envGenPihole.walkOk "pihole" = true ∧
      discoveredTemplates envGenPihole "pihole" ≠ []) ∧
    (generateComponent envGenPihole "prod" "pihole" piholeComp emptyGen).1.renders =
      emptyGen.renders ++ (discoveredTemplates envGenPihole "pihole").map
        (fun t => (t, componentPath "prod" piholeComp.project piholeComp.nspace "pihole" ++
          ["generated", trimSuffix (goBase t) ".tmpl"])) :=
  ⟨⟨by decide, by decide, by decide⟩,
    (c5_component_render_selection envGenPihole "prod" "pihole" piholeComp emptyGen
      (generateComponent envGenPihole "prod" "pihole" piholeComp emptyGen).1
      (by decide)).1 ⟨by decide, by decide, by decide⟩⟩



theorem seqE_of_snd_none {r : GenState × Option String}
    {f : GenState → GenState × Option String} (h : r.2 = none) : seqE r f = f r.1 := by
  rcases r with ⟨a, b⟩
  cases b
  · rfl
  · simp at h

/-- Sufficient environment conditions for the loop body of one component to
succeed: app base present, project and namespace nonempty, the template walk
available when the templates directory exists, and every render outcome
present. -/
def componentEnvOk (env : GenEnv) (name : String) (c : Component) : Prop :=
  env.baseExists name = true ∧ c.project ≠ "" ∧ c.nspace ≠ "" ∧
  (env.walkOk name = true ∨ env.tmplDirExists name = false) ∧
  (env.rootKOut name).isSome = true ∧ env.customValuesOut.isSome = true ∧
  env.customKOut.isSome = true ∧
  (env.renderOut ["base.kustomization.yaml.tmpl"] name).isSome = true ∧
  (∀ t ∈ discoveredTemplates env name, (env.renderOut t name).isSome = true)

instance (env : GenEnv) (name : String) (c : Component) :
    Decidable (componentEnvOk env name c) := by
  unfold componentEnvOk
  infer_instance

@[simp] theorem createIfAbsent_fst_dirs (st : GenState) (p : FsPath) (out : Option String) :
    (createIfAbsent st p out).1.dirs = st.dirs :=
  createIfAbsent_dirs
    (show createIfAbsent st p out = ((createIfAbsent st p out).1, (createIfAbsent st p out).2)
      from rfl)

theorem renderStage_ok (env : GenEnv) (name : String) (gp : FsPath) (st6 : GenState)
    (hw : env.walkOk name = true ∨ env.tmplDirExists name = false)
    (hbase : (env.renderOut ["base.kustomization.yaml.tmpl"] name).isSome = true)
    (hall : ∀ t ∈ discoveredTemplates env name, (env.renderOut t name).isSome = true) :
    ∃ st', renderStage env name gp st6 = (st', none) := by
  have hfind : ∃ tmpls, FindAppTemplates env name = some tmpls ∧
      (tmpls = [] ∨ tmpls = discoveredTemplates env name) := by
    by_cases hd : env.tmplDirExists name
    · rcases hw with hw | hw
      · exact ⟨discoveredTemplates env name, by simp [FindAppTemplates, hd, hw], Or.inr rfl⟩
      · simp_all
    · exact ⟨[], by simp [FindAppTemplates, hd], Or.inl rfl⟩
  rcases hfind with ⟨tmpls, hF, hcases⟩
  unfold renderStage
  rw [hF]
  dsimp only
  by_cases hemp : tmpls.isEmpty
  · rcases Option.isSome_iff_exists.mp hbase with ⟨content, hc⟩
    rw [if_pos hemp, hc]
    exact ⟨_, rfl⟩
  · rw [if_neg hemp]
    rcases hcases with rfl | rfl
    · simp at hemp
    · exact renderTemplates_ok env name gp _ st6 hall

theorem generateComponent_ok (env : GenEnv) (cluster name : String) (c : Component)
    (h : componentEnvOk env name c) (st : GenState) :
    ∃ st', generateComponent env cluster name c st = (st', none) ∧
      (componentPath cluster c.project c.nspace name ++ ["generated"]) ∈ st'.dirs ∧
      (∀ d ∈ st'.dirs, d ∈ st.dirs ∨ (componentPath cluster c.project c.nspace name) <+: d) := by
  obtain ⟨hb, hp, hn, hw, hroot, hvals, hcust, hbase, hall⟩ := h
  have hcopy : copyAppBase env cluster name c st =
      (copyTree (removeTree st (componentPath cluster c.project c.nspace name ++ ["base"]))
        (componentPath cluster c.project c.nspace name ++ ["base"]) (env.baseFiles name),
        none) := by
    simp [copyAppBase, hb, hp, hn]
  unfold generateComponent
  rw [hcopy, seqE_of_snd_none rfl]
  dsimp only
  rw [if_neg hp, if_neg hn]
  rw [seqE_of_snd_none (createIfAbsent_ok _ _ hroot)]
  rw [seqE_of_snd_none (createIfAbsent_ok _ _ hvals)]
  rw [seqE_of_snd_none (createIfAbsent_ok _ _ hcust)]
  rcases renderStage_ok env name
      (componentPath cluster c.project c.nspace name ++ ["generated"]) _ hw hbase hall
    with ⟨st', hst'⟩
  refine ⟨st', hst', ?_, ?_⟩
  · rw [renderStage_dirs hst']
    simp [createIfAbsent_fst_dirs]
  · intro d hd
    rw [renderStage_dirs hst'] at hd
    simp [createIfAbsent_fst_dirs, List.mem_filter] at hd
    rcases hd with rfl | rfl | rfl | ⟨hmem, -⟩
    · exact Or.inr (List.prefix_append _ _)
    · exact Or.inr (List.prefix_append _ _)
    · exact Or.inr (List.prefix_append _ _)
    · exact Or.inl hmem



/-- Complete case analysis of the directory list across one loop-body run,
successful or aborted: unchanged, or grown by the base/generated/custom
directories of this component (with the old base subtree dropped). -/
theorem generateComponent_dirs_cases {env : GenEnv} {cluster name : String} {c : Component}
    {st st' : GenState} {e? : Option String}
    (h : generateComponent env cluster name c st = (st', e?)) :
    st'.dirs = st.dirs ∨
    st'.dirs = (componentPath cluster c.project c.nspace name ++ ["base"]) ::
      st.dirs.filter
        (fun d => !((componentPath cluster c.project c.nspace name ++ ["base"]).isPrefixOf d)) ∨
    st'.dirs = (componentPath cluster c.project c.nspace name ++ ["generated"]) ::
      (componentPath cluster c.project c.nspace name ++ ["base"]) ::
      st.dirs.filter
        (fun d => !((componentPath cluster c.project c.nspace name ++ ["base"]).isPrefixOf d)) ∨
    st'.dirs = (componentPath cluster c.project c.nspace name ++ ["custom"]) ::
      (componentPath cluster c.project c.nspace name ++ ["generated"]) ::
      (componentPath cluster c.project c.nspace name ++ ["base"]) ::
      st.dirs.filter
        (fun d => !((componentPath cluster c.project c.nspace name ++ ["base"]).isPrefixOf d)) := by
  unfold generateComponent at h
  rcases seqE_inv h with ⟨stm, e, hcopy, hout⟩ | ⟨stm, hcopy, hf⟩
  · injection hout with hst he
    subst hst
    rcases copyAppBase_inv hcopy with rfl | hcp
    · left; rfl
    · right; left; rw [hcp]; simp
  · obtain ⟨-, hp, hn, hstm⟩ := copyAppBase_ok hcopy
    rw [if_neg hp, if_neg hn] at hf
    dsimp only at hf
    rcases seqE_inv hf with ⟨stm2, e2, hcr, hout⟩ | ⟨stm2, hcr, hf2⟩
    · injection hout with hst he
      subst hst
      right; right; left
      rw [createIfAbsent_dirs hcr, hstm]
      simp
    · have hd2 := createIfAbsent_dirs hcr
      rcases seqE_inv hf2 with ⟨stm3, e3, hcv, hout⟩ | ⟨stm3, hcv, hf3⟩
      · injection hout with hst he
        subst hst
        right; right; right
        rw [createIfAbsent_dirs hcv]
        simp [hd2, hstm]
      · have hd3 := createIfAbsent_dirs hcv
        rcases seqE_inv hf3 with ⟨stm4, e4, hck, hout⟩ | ⟨stm4, hck, hf4⟩
        · injection hout with hst he
          subst hst
          right; right; right
          rw [createIfAbsent_dirs hck, hd3]
          simp [hd2, hstm]
        · have hd4 := createIfAbsent_dirs hck
          right; right; right
          rw [renderStage_dirs hf4, hd4, hd3]
          simp [hd2, hstm]



theorem generateComponent_dirs_super {env : GenEnv} {cluster name : String} {c : Component}
    {st st' : GenState} {e? : Option String}
    (h : generateComponent env cluster name c st = (st', e?)) :
    ∀ d ∈ st'.dirs, d ∈ st.dirs ∨ (componentPath cluster c.project c.nspace name) <+: d := by
  intro d hd
  rcases generateComponent_dirs_cases h with hc | hc | hc | hc <;> rw [hc] at hd
  · exact Or.inl hd
  all_goals simp only [List.mem_cons, List.mem_filter] at hd
  · rcases hd with rfl | ⟨hmem, -⟩
    · exact Or.inr (List.prefix_append _ _)
    · exact Or.inl hmem
  · rcases hd with rfl | rfl | ⟨hmem, -⟩
    · exact Or.inr (List.prefix_append _ _)
    · exact Or.inr (List.prefix_append _ _)
    · exact Or.inl hmem
  · rcases hd with rfl | rfl | rfl | ⟨hmem, -⟩
    · exact Or.inr (List.prefix_append _ _)
    · exact Or.inr (List.prefix_append _ _)
    · exact Or.inr (List.prefix_append _ _)
    · exact Or.inl hmem

theorem generateComponent_dir_kept {env : GenEnv} {cluster name : String} {c : Component}
    {st st' : GenState} {e? : Option String}
    (h : generateComponent env cluster name c st = (st', e?)) (d : FsPath)
    (hd : d ∈ st.dirs)
    (hnb : ¬ ((componentPath cluster c.project c.nspace name ++ ["base"]) <+: d)) :
    d ∈ st'.dirs := by
  have hmem : d ∈ st.dirs.filter
      (fun x => !((componentPath cluster c.project c.nspace name ++ ["base"]).isPrefixOf x)) := by
    rw [List.mem_filter]
    refine ⟨hd, ?_⟩
    rw [Bool.not_eq_true']
    rw [Bool.eq_false_iff]
    intro hx
    exact hnb (List.isPrefixOf_iff_prefix.mp hx)
  rcases generateComponent_dirs_cases h with hc | hc | hc | hc <;> rw [hc] <;> simp_all

/-- Skipping disabled components: the loop is the loop over the enabled
sublist. -/
theorem generateApps_filter_enabled (env : GenEnv) (cluster : String) :
    ∀ (catalog : List (String × Component)) (st : GenState),
      generateApps env cluster catalog st =
        generateApps env cluster (catalog.filter (fun e => e.2.enabled)) st := by
  intro catalog
  induction catalog with
  | nil => intro st; rfl
  | cons hd tl ih =>
    intro st
    rcases hd with ⟨n, c⟩
    cases he : c.enabled <;> simp [generateApps, List.filter_cons, he, ih]

/-- A directory of segment length 7 whose last segment is not `base` survives
the whole loop: every removal is of a `<componentPath>/base` subtree, whose
members of length 7 are exactly that 7-segment path itself. -/
theorem generateApps_keeps_dir (env : GenEnv) (cluster : String) :
    ∀ (catalog : List (String × Component)) (st st' : GenState) (e? : Option String),
      generateApps env cluster catalog st = (st', e?) →
      ∀ d ∈ st.dirs, d.length = 7 → d.getLastD "" ≠ "base" → d ∈ st'.dirs := by
  intro catalog
  induction catalog with
  | nil =>
    intro st st' e? h d hd _ _
    cases h
    exact hd
  | cons hdx tl ih =>
    intro st st' e? h d hd hlen hlast
    rcases hdx with ⟨n, c⟩
    unfold generateApps at h
    split at h
    · exact ih _ _ _ h d hd hlen hlast
    · split at h
      · rename_i st1 hcomp
        refine ih _ _ _ h d ?_ hlen hlast
        refine generateComponent_dir_kept hcomp d hd ?_
        intro hpre
        have heq := hpre.eq_of_length (by simp [componentPath, hlen])
        rw [← heq] at hlast
        simp [componentPath] at hlast
      · rename_i st1 e hcomp
        injection h with h1 h2
        subst h1
        refine generateComponent_dir_kept hcomp d hd ?_
        intro hpre
        have heq := hpre.eq_of_length (by simp [componentPath, hlen])
        rw [← heq] at hlast
        simp [componentPath] at hlast



theorem generateApps_ok (env : GenEnv) (cluster : String) :
    ∀ (catalog : List (String × Component)) (st0 : GenState),
      (∀ e ∈ catalog, e.2.enabled = true → componentEnvOk env e.1 e.2) →
      ∃ st', generateApps env cluster catalog st0 = (st', none) ∧
        (∀ e ∈ catalog, e.2.enabled = true →
          componentPath cluster e.2.project e.2.nspace e.1 ++ ["generated"] ∈ st'.dirs) ∧
        (∀ d ∈ st'.dirs, d ∈ st0.dirs ∨ ∃ e ∈ catalog, e.2.enabled = true ∧
          componentPath cluster e.2.project e.2.nspace e.1 <+: d) := by
  intro catalog
  induction catalog with
  | nil =>
    intro st0 _
    exact ⟨st0, rfl, by simp, fun d hd => Or.inl hd⟩
  | cons hd tl ih =>
    intro st0 hok
    rcases hd with ⟨n, c⟩
    cases he : c.enabled
    · rcases ih st0 (fun e he' hen => hok e (by simp [he']) hen) with ⟨st', hrun, hgen, hsuper⟩
      refine ⟨st', by simpa [generateApps, he] using hrun, ?_, ?_⟩
      · intro e hme hen
        rcases List.mem_cons.mp hme with rfl | hme'
        · simp [he] at hen
        · exact hgen e hme' hen
      · intro d hdm
        rcases hsuper d hdm with h | ⟨e, hme, hen, hp⟩
        · exact Or.inl h
        · exact Or.inr ⟨e, by simp [hme], hen, hp⟩
    · have hco := hok (n, c) (by simp) he
      rcases generateComponent_ok env cluster n c hco st0 with ⟨st1, hcomp, hgen1, hsuper1⟩
      rcases ih st1 (fun e he' hen => hok e (by simp [he']) hen) with ⟨st', hrun, hgen, hsuper⟩
      refine ⟨st', by simpa [generateApps, he, hcomp] using hrun, ?_, ?_⟩
      · intro e hme hen
        rcases List.mem_cons.mp hme with rfl | hme'
        · refine generateApps_keeps_dir env cluster tl st1 st' none hrun _ hgen1 ?_ ?_
          · simp [componentPath]
          · simp [componentPath]
        · exact hgen e hme' hen
      · intro d hdm
        rcases hsuper d hdm with h1 | ⟨e, hme, hen, hp⟩
        · rcases hsuper1 d h1 with h2 | h2
          · exact Or.inl h2
          · exact Or.inr ⟨(n, c), by simp, he, h2⟩
        · exact Or.inr ⟨e, by simp [hme], hen, hp⟩

theorem generateComponent_missing_field (env : GenEnv) (cluster name : String)
    (c : Component) (st : GenState) (hpn : c.project = "" ∨ c.nspace = "") :
    ∃ msg, generateComponent env cluster name c st = (st, some msg) := by
  by_cases hb : env.baseExists name
  · rcases hpn with hp | hn
    · exact ⟨"project is required", by simp [generateComponent, copyAppBase, seqE, hb, hp]⟩
    · by_cases hp : c.project = ""
      · exact ⟨"project is required", by simp [generateComponent, copyAppBase, seqE, hb, hp]⟩
      · exact ⟨"namespace is required",
          by simp [generateComponent, copyAppBase, seqE, hb, hp, hn]⟩
  · exact ⟨"app base not found in cache", by simp [generateComponent, copyAppBase, seqE, hb]⟩



/-- C6: for a valid site config — every enabled component has a cached app
base, nonempty project and namespace, and all its renders available — the
apps loop equals the loop over only the enabled components (disabled
components produce no output at all), succeeds, creates the output directory
`clusters/<name>/apps/<project>/<namespace>/<component>` for every enabled
component (via its `generated` subdirectory), and creates nothing outside
those component directories; an enabled component with an empty project or
namespace makes the loop body error with the state unchanged — before any
output is written for that component. -/
theorem c6_enabled_component_directories (env : GenEnv) (cluster : String)
    (catalog : List (String × Component)) (st0 : GenState)
    (hok : ∀ e ∈ catalog, e.2.enabled = true → componentEnvOk env e.1 e.2) :
    generateApps env cluster catalog st0 =
      generateApps env cluster (catalog.filter (fun e => e.2.enabled)) st0 ∧
    (∃ st', generateApps env cluster catalog st0 = (st', none) ∧
      (∀ e ∈ catalog, e.2.enabled = true →
        componentPath cluster e.2.project e.2.nspace e.1 ++ ["generated"] ∈ st'.dirs) ∧
      (∀ d ∈ st'.dirs, d ∈ st0.dirs ∨ ∃ e ∈ catalog, e.2.enabled = true ∧
        componentPath cluster e.2.project e.2.nspace e.1 <+: d)) ∧
    (∀ (name : String) (c : Component) (st : GenState), c.project = "" ∨ c.nspace = "" →
      ∃ msg, generateComponent env cluster name c st = (st, some msg)) :=
  ⟨generateApps_filter_enabled env cluster catalog st0,
   generateApps_ok env cluster catalog st0 hok,
   fun name c st hpn => generateComponent_missing_field env cluster name c st hpn⟩

/-- A disabled cert-manager component. -/
def certManagerComp : Component :=
  { enabled := false, project := "", nspace := "", values := [] }

/-- Witness catalog: pihole enabled, cert-manager disabled. -/
def catalogW : List (String × Component) :=
  [("pihole", piholeComp), ("cert-manager", certManagerComp)]

/-- Witness for `c6_enabled_component_directories` at a concrete input. -/
theorem c6_enabled_component_directories_witness :
    (∀ e ∈ catalogW, e.2.enabled = true → componentEnvOk envGenPihole e.1 e.2) ∧
    (generateApps envGenPihole "prod" catalogW emptyGen =
      generateApps envGenPihole "prod" (catalogW.filter (fun e => e.2.enabled)) emptyGen ∧
    (∃ st', generateApps envGenPihole "prod" catalogW emptyGen = (st', none) ∧
      (∀ e ∈ catalogW, e.2.enabled = true →
        componentPath "prod" e.2.project e.2.nspace e.1 ++ ["generated"] ∈ st'.dirs) ∧
      (∀ d ∈ st'.dirs, d ∈ emptyGen.dirs ∨ ∃ e ∈ catalogW, e.2.enabled = true ∧
        componentPath "prod" e.2.project e.2.nspace e.1 <+: d)) ∧
    (∀ (name : String) (c : Component) (st : GenState), c.project = "" ∨ c.nspace = "" →
      ∃ msg, generateComponent envGenPihole "prod" name c st = (st, some msg))) :=
  ⟨by decide,
   c6_enabled_component_directories envGenPihole "prod" catalogW emptyGen (by decide)⟩




theorem find?_filter_of_pred {α : Type} (l : List α) (f g : α → Bool)
    (h : ∀ x, g x = true → f x = true) : (l.filter f).find? g = l.find? g := by
  induction l with
  | nil => rfl
  | cons hd tl ih =>
    by_cases hf : f hd
    · rw [List.filter_cons_of_pos hf]
      by_cases hg : g hd
      · rw [List.find?_cons_of_pos _ hg, List.find?_cons_of_pos _ hg]
      · rw [List.find?_cons_of_neg _ hg, List.find?_cons_of_neg _ hg]
        exact ih
    · have hg : g hd = false := by
        cases hgv : g hd
        · rfl
        · exact absurd (h hd hgv) hf
      rw [List.filter_cons_of_neg (by simpa using hf), List.find?_cons_of_neg _ (by simp [hg])]
      exact ih

@[simp] theorem fsLookup_write_self (st : GenState) (p : FsPath) (c : String) :
    fsLookup (fsWrite st p c) p = some c := by
  simp [fsLookup, fsWrite, List.find?_cons_of_pos]

theorem fsLookup_write_ne (st : GenState) (p q : FsPath) (c : String) (h : q ≠ p) :
    fsLookup (fsWrite st p c) q = fsLookup st q := by
  unfold fsLookup fsWrite
  dsimp only
  rw [List.find?_cons_of_neg _ (by simpa using fun he => h he.symm)]
  rw [find?_filter_of_pred _ _ _ ?side]
  case side =>
    intro x hx
    have : x.1 = q := by simpa using hx
    simp [this, h]

theorem fsLookup_removeTree (st : GenState) (p q : FsPath) (h : ¬ (p <+: q)) :
    fsLookup (removeTree st p) q = fsLookup st q := by
  unfold fsLookup removeTree
  rw [find?_filter_of_pred _ _ _ ?side]
  case side =>
    intro x hx
    have hq : x.1 = q := by simpa using hx
    rw [hq]
    rw [Bool.not_eq_true']
    rw [Bool.eq_false_iff]
    intro hpre
    exact h (List.isPrefixOf_iff_prefix.mp hpre)

theorem fsLookup_copyTree (st : GenState) (dest : FsPath) (tree : List (FsPath × String))
    (q : FsPath) (h : ¬ (dest <+: q)) :
    fsLookup (copyTree st dest tree) q = fsLookup st q := by
  suffices hg : ∀ (l : List (FsPath × String)) (s : GenState),
      fsLookup (l.foldl (fun s e => fsWrite s (dest ++ e.1) e.2) s) q = fsLookup s q by
    simpa [copyTree, fsLookup] using hg tree (mkdirAll st dest)
  intro l
  induction l with
  | nil => intro s; rfl
  | cons hd tl ih =>
    intro s
    rw [List.foldl_cons, ih, fsLookup_write_ne]
    intro hq
    exact h (hq ▸ List.prefix_append dest hd.1)

theorem statFile_true_of_lookup {st : GenState} {p : FsPath} {v : String}
    (h : fsLookup st p = some v) : statFile st p = true := by
  unfold fsLookup at h
  unfold statFile
  rcases hf : st.files.find? (fun e => e.1 == p) with _ | e
  · rw [hf] at h; cases h
  · have := List.find?_some hf
    have hmem := List.mem_of_find?_eq_some hf
    rw [List.any_eq_true]
    exact ⟨e, hmem, this⟩

theorem createIfAbsent_preserves_self {st : GenState} {p : FsPath} {out : Option String}
    {st1 : GenState} {e : Option String} (h : createIfAbsent st p out = (st1, e))
    {v : String} (hv : fsLookup st p = some v) : fsLookup st1 p = some v := by
  unfold createIfAbsent at h
  rw [if_pos (statFile_true_of_lookup hv)] at h
  injection h with h1 h2
  rw [← h1]
  exact hv

theorem createIfAbsent_preserves_other {st : GenState} {p : FsPath} {out : Option String}
    {st1 : GenState} {e : Option String} (h : createIfAbsent st p out = (st1, e))
    (q : FsPath) (hq : q ≠ p) : fsLookup st1 q = fsLookup st q := by
  rcases createIfAbsent_states h with rfl | ⟨-, content, -, rfl⟩
  · rfl
  · exact fsLookup_write_ne st p q content hq

theorem renderTemplates_files_frame (env : GenEnv) (name : String) (gp : FsPath) :
    ∀ (ts : List FsPath) (st st' : GenState) (e? : Option String),
      renderTemplates env name gp ts st = (st', e?) →
      ∀ q, ¬ (gp <+: q) → fsLookup st' q = fsLookup st q := by
  intro ts
  induction ts with
  | nil => intro st st' e? h q hq; cases h; rfl
  | cons t rest ih =>
    intro st st' e? h q hq
    unfold renderTemplates at h
    dsimp only at h
    split at h
    · cases h; rfl
    · rw [ih _ _ _ h q hq]
      show fsLookup (fsWrite st _ _) q = fsLookup st q
      rw [fsLookup_write_ne]
      intro he
      exact hq (he ▸ List.prefix_append gp _)

theorem renderStage_files_frame {env : GenEnv} {name : String} {gp : FsPath}
    {st6 st' : GenState} {e? : Option String} (h : renderStage env name gp st6 = (st', e?))
    (q : FsPath) (hq : ¬ (gp <+: q)) : fsLookup st' q = fsLookup st6 q := by
  unfold renderStage at h
  split at h
  · cases h; rfl
  · split at h
    · split at h
      · cases h; rfl
      · cases h
        show fsLookup (fsWrite st6 _ _) q = fsLookup st6 q
        rw [fsLookup_write_ne]
        intro he
        exact hq (he ▸ List.prefix_append gp _)
    · exact renderTemplates_files_frame env name gp _ _ _ _ h q hq



theorem prefix_eq_of_equal_length {a b x : List String} (ha : a <+: x) (hb : b <+: x)
    (hlen : a.length = b.length) : a = b := by
  rcases List.prefix_or_prefix_of_prefix ha hb with h | h
  · exact h.eq_of_length hlen
  · exact (h.eq_of_length hlen.symm).symm

/-- Frame: a loop-body run for one component never touches a file outside the
component's own directory. -/
theorem generateComponent_files_frame {env : GenEnv} {cluster name : String} {c : Component}
    {st st' : GenState} {e? : Option String}
    (h : generateComponent env cluster name c st = (st', e?)) (q : FsPath)
    (hq : ¬ ((componentPath cluster c.project c.nspace name) <+: q)) :
    fsLookup st' q = fsLookup st q := by
  have hsub : ∀ s : FsPath, ¬ ((componentPath cluster c.project c.nspace name ++ s) <+: q) :=
    fun s hs => hq ((List.prefix_append _ s).trans hs)
  have hne : ∀ s : FsPath, q ≠ componentPath cluster c.project c.nspace name ++ s :=
    fun s he => hq (he ▸ List.prefix_append _ s)
  unfold generateComponent at h
  rcases seqE_inv h with ⟨stm, e, hcopy, hout⟩ | ⟨stm, hcopy, hf⟩
  · injection hout with hst _
    subst hst
    rcases copyAppBase_inv hcopy with rfl | hcp
    · rfl
    · rw [hcp, fsLookup_copyTree _ _ _ _ (hsub ["base"]),
        fsLookup_removeTree _ _ _ (hsub ["base"])]
  · obtain ⟨-, hp, hn, hstm⟩ := copyAppBase_ok hcopy
    have hstmq : fsLookup stm q = fsLookup st q := by
      rw [hstm, fsLookup_copyTree _ _ _ _ (hsub ["base"]),
        fsLookup_removeTree _ _ _ (hsub ["base"])]
    rw [if_neg hp, if_neg hn] at hf
    dsimp only at hf
    rcases seqE_inv hf with ⟨stm2, e2, hcr, hout⟩ | ⟨stm2, hcr, hf2⟩
    · injection hout with hst _
      subst hst
      rw [createIfAbsent_preserves_other hcr q (hne ["kustomization.yaml"])]
      exact hstmq
    · have h2 : fsLookup stm2 q = fsLookup stm q :=
        createIfAbsent_preserves_other hcr q (hne ["kustomization.yaml"])
      rcases seqE_inv hf2 with ⟨stm3, e3, hcv, hout⟩ | ⟨stm3, hcv, hf3⟩
      · injection hout with hst _
        subst hst
        rw [createIfAbsent_preserves_other hcv q
          (by rw [List.append_assoc]; exact hne (["custom"] ++ ["values.yaml"]))]
        rw [show fsLookup (mkdirAll stm2 _) q = fsLookup stm2 q from rfl, h2, hstmq]
      · have h3 : fsLookup stm3 q = fsLookup stm2 q :=
          createIfAbsent_preserves_other hcv q
            (by rw [List.append_assoc]; exact hne (["custom"] ++ ["values.yaml"]))
        rcases seqE_inv hf3 with ⟨stm4, e4, hck, hout⟩ | ⟨stm4, hck, hf4⟩
        · injection hout with hst _
          subst hst
          rw [createIfAbsent_preserves_other hck q
            (by rw [List.append_assoc]; exact hne (["custom"] ++ ["kustomization.yaml"]))]
          rw [h3, h2, hstmq]
        · have h4 : fsLookup stm4 q = fsLookup stm3 q :=
            createIfAbsent_preserves_other hck q
              (by rw [List.append_assoc]; exact hne (["custom"] ++ ["kustomization.yaml"]))
          rw [renderStage_files_frame hf4 q (hsub ["generated"]), h4, h3, h2, hstmq]



/-- The user-owned scaffolding files of a component — its root
`kustomization.yaml`, `custom/kustomization.yaml` and `custom/values.yaml` —
are never modified by the component's own loop body when they already exist:
the creates are stat-guarded and every other write goes to `base/` or
`generated/`. -/
theorem generateComponent_scaffold_preserved {env : GenEnv} {cluster name : String}
    {c : Component} {st st' : GenState} {e? : Option String}
    (h : generateComponent env cluster name c st = (st', e?)) (q : FsPath)
    (hq : q = componentPath cluster c.project c.nspace name ++ ["kustomization.yaml"] ∨
          q = componentPath cluster c.project c.nspace name ++ ["custom", "kustomization.yaml"] ∨
          q = componentPath cluster c.project c.nspace name ++ ["custom", "values.yaml"])
    (v : String) (hv : fsLookup st q = some v) : fsLookup st' q = some v := by
  have hnb : ¬ ((componentPath cluster c.project c.nspace name ++ ["base"]) <+: q) := by
    rcases hq with rfl | rfl | rfl <;>
      simp [List.prefix_append_right_inj, List.cons_prefix_cons]
  have hng : ¬ ((componentPath cluster c.project c.nspace name ++ ["generated"]) <+: q) := by
    rcases hq with rfl | rfl | rfl <;>
      simp [List.prefix_append_right_inj, List.cons_prefix_cons]
  have stepAny : ∀ (p : FsPath) (out : Option String) {s s1 : GenState} {e : Option String},
      createIfAbsent s p out = (s1, e) → fsLookup s q = some v → fsLookup s1 q = some v := by
    intro p out s s1 e hc hl
    by_cases hq1 : q = p
    · subst hq1
      exact createIfAbsent_preserves_self hc hl
    · rw [createIfAbsent_preserves_other hc q hq1]
      exact hl
  unfold generateComponent at h
  rcases seqE_inv h with ⟨stm, e, hcopy, hout⟩ | ⟨stm, hcopy, hf⟩
  · injection hout with hst _
    subst hst
    rcases copyAppBase_inv hcopy with rfl | hcp
    · exact hv
    · rw [hcp, fsLookup_copyTree _ _ _ _ hnb, fsLookup_removeTree _ _ _ hnb]
      exact hv
  · obtain ⟨-, hp, hn, hstm⟩ := copyAppBase_ok hcopy
    have hstmq : fsLookup stm q = some v := by
      rw [hstm, fsLookup_copyTree _ _ _ _ hnb, fsLookup_removeTree _ _ _ hnb]
      exact hv
    rw [if_neg hp, if_neg hn] at hf
    dsimp only at hf
    rcases seqE_inv hf with ⟨stm2, e2, hcr, hout⟩ | ⟨stm2, hcr, hf2⟩
    · injection hout with hst _
      subst hst
      exact stepAny _ _ hcr hstmq
    · have h2 : fsLookup stm2 q = some v := stepAny _ _ hcr hstmq
      rcases seqE_inv hf2 with ⟨stm3, e3, hcv, hout⟩ | ⟨stm3, hcv, hf3⟩
      · injection hout with hst _
        subst hst
        exact stepAny _ _ hcv h2
      · have h3 : fsLookup stm3 q = some v := stepAny _ _ hcv h2
        rcases seqE_inv hf3 with ⟨stm4, e4, hck, hout⟩ | ⟨stm4, hck, hf4⟩
        · injection hout with hst _
          subst hst
          exact stepAny _ _ hck h3
        · have h4 : fsLookup stm4 q = some v := stepAny _ _ hck h3
          rw [renderStage_files_frame hf4 q hng]
          exact h4



/-- Across the whole apps loop, a pre-existing scaffold file of component
`(name, c)` is preserved: its own body skips the stat-guarded creates, and
every other component's body writes only inside its own (distinct) component
directory. -/
theorem generateApps_scaffold_preserved (env : GenEnv) (cluster name : String)
    (c : Component) :
    ∀ (catalog : List (String × Component)) (st0 st' : GenState) (e? : Option String),
      generateApps env cluster catalog st0 = (st', e?) →
      (∀ e ∈ catalog, e.1 = name → e.2 = c) →
      (∀ e ∈ catalog, e.1 ≠ name →
        componentPath cluster e.2.project e.2.nspace e.1 ≠
          componentPath cluster c.project c.nspace name) →
      ∀ q,
        (q = componentPath cluster c.project c.nspace name ++ ["kustomization.yaml"] ∨
         q = componentPath cluster c.project c.nspace name ++ ["custom", "kustomization.yaml"] ∨
         q = componentPath cluster c.project c.nspace name ++ ["custom", "values.yaml"]) →
        ∀ v, fsLookup st0 q = some v → fsLookup st' q = some v := by
  intro catalog
  induction catalog with
  | nil =>
    intro st0 st' e? h _ _ q hq v hv
    cases h
    exact hv
  | cons hd tl ih =>
    intro st0 st' e? h hkey huniq q hq v hv
    rcases hd with ⟨n', c'⟩
    unfold generateApps at h
    split at h
    · exact ih _ _ _ h (fun e he => hkey e (by simp [he]))
        (fun e he => huniq e (by simp [he])) q hq v hv
    · have hbody : ∀ {st1 : GenState} {eb : Option String},
          generateComponent env cluster n' c' st0 = (st1, eb) →
          fsLookup st1 q = some v := by
        intro st1 eb hcomp
        by_cases hn' : n' = name
        · subst hn'
          have hc' : c' = c := hkey (n', c') (by simp) rfl
          subst hc'
          exact generateComponent_scaffold_preserved hcomp q hq v hv
        · refine (generateComponent_files_frame hcomp q ?_).trans hv
          intro hpre
          have hcpq : componentPath cluster c.project c.nspace name <+: q := by
            rcases hq with rfl | rfl | rfl <;> exact List.prefix_append _ _
          have heq : componentPath cluster c'.project c'.nspace n' =
              componentPath cluster c.project c.nspace name :=
            prefix_eq_of_equal_length hpre hcpq (by simp [componentPath])
          exact huniq (n', c') (by simp) hn' heq
      split at h
      · rename_i st1 hcomp
        exact ih _ _ _ h (fun e he => hkey e (by simp [he]))
          (fun e he => huniq e (by simp [he])) q hq v (hbody hcomp)
      · rename_i st1 eb hcomp
        injection h with h1 h2
        subst h1
        exact hbody hcomp

/-- On a successful loop-body run with no component-specific templates, the
`generated/kustomization.yaml` holds the freshly rendered base-template
content — regenerated output is overwritten on every run (truncate-on-write),
whatever was there before. -/
theorem generateComponent_overwrites_generated {env : GenEnv} {cluster name : String}
    {c : Component} {st st' : GenState}
    (h : generateComponent env cluster name c st = (st', none))
    (hF : FindAppTemplates env name = some []) :
    fsLookup st' (componentPath cluster c.project c.nspace name ++
        ["generated", "kustomization.yaml"]) =
      env.renderOut ["base.kustomization.yaml.tmpl"] name := by
  obtain ⟨st1, hcopy, hrest⟩ := seqE_none_inv h
  obtain ⟨-, hp, hn, -⟩ := copyAppBase_ok hcopy
  rw [if_neg hp, if_neg hn] at hrest
  obtain ⟨st3, hroot, hrest⟩ := seqE_none_inv hrest
  obtain ⟨st5, hvals, hrest⟩ := seqE_none_inv hrest
  obtain ⟨st6, hcust, hrender⟩ := seqE_none_inv hrest
  unfold renderStage at hrender
  rw [hF] at hrender
  dsimp only at hrender
  simp only [List.isEmpty_nil, if_true] at hrender
  split at hrender
  · cases hrender
  · rename_i content hc
    cases hrender
    rw [hc]
    show fsLookup (fsWrite st6 _ _) _ = some content
    rw [show (componentPath cluster c.project c.nspace name ++ ["generated"]) ++
        ["kustomization.yaml"] =
        componentPath cluster c.project c.nspace name ++ ["generated", "kustomization.yaml"]
      from by simp]
    exact fsLookup_write_self st6 _ content



/-- C7: re-running the generate command overwrites files under each
component's `generated/` directory (truncate-on-write; the last conjunct
shows `generated/kustomization.yaml` holds the freshly rendered content
after any successful run), while the user-owned scaffolding — the component
root `kustomization.yaml`, `custom/kustomization.yaml` and
`custom/values.yaml` — is created only when absent and never modified by a
re-run: whenever these files exist before the run, their contents are
unchanged after it, whether the run succeeds or aborts. The two hypotheses
say catalog keys are unique (they come from a Go map) and no other
component resolves to the same output directory. -/
theorem c7_user_scaffolding_preserved (env : GenEnv) (cluster : String)
    (catalog : List (String × Component)) (st0 st' : GenState) (e? : Option String)
    (name : String) (c : Component)
    (hrun : generateApps env cluster catalog st0 = (st', e?))
    (hkey : ∀ e ∈ catalog, e.1 = name → e.2 = c)
    (huniq : ∀ e ∈ catalog, e.1 ≠ name →
      componentPath cluster e.2.project e.2.nspace e.1 ≠
        componentPath cluster c.project c.nspace name) :
    (∀ v, fsLookup st0 (componentPath cluster c.project c.nspace name ++
        ["kustomization.yaml"]) = some v →
      fsLookup st' (componentPath cluster c.project c.nspace name ++
        ["kustomization.yaml"]) = some v) ∧
    (∀ v, fsLookup st0 (componentPath cluster c.project c.nspace name ++
        ["custom", "kustomization.yaml"]) = some v →
      fsLookup st' (componentPath cluster c.project c.nspace name ++
        ["custom", "kustomization.yaml"]) = some v) ∧
    (∀ v, fsLookup st0 (componentPath cluster c.project c.nspace name ++
        ["custom", "values.yaml"]) = some v →
      fsLookup st' (componentPath cluster c.project c.nspace name ++
        ["custom", "values.yaml"]) = some v) ∧
    (∀ (n : String) (c' : Component) (s s' : GenState),
      generateComponent env cluster n c' s = (s', none) →
      FindAppTemplates env n = some [] →
      fsLookup s' (componentPath cluster c'.project c'.nspace n ++
          ["generated", "kustomization.yaml"]) =
        env.renderOut ["base.kustomization.yaml.tmpl"] n) :=
  ⟨fun v => generateApps_scaffold_preserved env cluster name c catalog st0 st' e? hrun hkey
      huniq _ (Or.inl rfl) v,
   fun v => generateApps_scaffold_preserved env cluster name c catalog st0 st' e? hrun hkey
      huniq _ (Or.inr (Or.inl rfl)) v,
   fun v => generateApps_scaffold_preserved env cluster name c catalog st0 st' e? hrun hkey
      huniq _ (Or.inr (Or.inr rfl)) v,
   fun _ _ _ _ h hF => generateComponent_overwrites_generated h hF⟩

/-- Pre-existing user scaffolding for pihole. -/
def st0W : GenState :=
  { files :=
      [(["clusters", "prod", "apps", "net", "dns", "pihole", "kustomization.yaml"],
          "user root"),
       (["clusters", "prod", "apps", "net", "dns", "pihole", "custom", "kustomization.yaml"],
          "user custom"),
       (["clusters", "prod", "apps", "net", "dns", "pihole", "custom", "values.yaml"],
          "user values")],
    dirs := [], renders := [] }

/-- Witness for `c7_user_scaffolding_preserved` at a concrete input: the
three pre-existing pihole scaffold files survive a full run untouched. -/
theorem c7_user_scaffolding_preserved_witness :
    fsLookup st0W (componentPath "prod" piholeComp.project piholeComp.nspace "pihole" ++
      ["kustomization.yaml"]) = some "user root" ∧
    fsLookup (generateApps envGenPihole "prod" catalogW st0W).1
      (componentPath "prod" piholeComp.project piholeComp.nspace "pihole" ++
        ["kustomization.yaml"]) = some "user root" ∧
    fsLookup (generateApps envGenPihole "prod" catalogW st0W).1
      (componentPath "prod" piholeComp.project piholeComp.nspace "pihole" ++
        ["custom", "kustomization.yaml"]) = some "user custom" ∧
    fsLookup (generateApps envGenPihole "prod" catalogW st0W).1
      (componentPath "prod" piholeComp.project piholeComp.nspace "pihole" ++
        ["custom", "values.yaml"]) = some "user values" := by
  have hkey : ∀ e ∈ catalogW, e.1 = "pihole" → e.2 = piholeComp := by
    intro e he h
    rcases (by simpa [catalogW] using he : e = ("pihole", piholeComp) ∨
        e = ("cert-manager", certManagerComp)) with rfl | rfl
    · rfl
    · exact absurd h (by decide)
  have huniq : ∀ e ∈ catalogW, e.1 ≠ "pihole" →
      componentPath "prod" e.2.project e.2.nspace e.1 ≠
        componentPath "prod" piholeComp.project piholeComp.nspace "pihole" := by
    intro e he h
    rcases (by simpa [catalogW] using he : e = ("pihole", piholeComp) ∨
        e = ("cert-manager", certManagerComp)) with rfl | rfl
    · exact absurd rfl h
    · decide
  have T := c7_user_scaffolding_preserved envGenPihole "prod" catalogW st0W
    (generateApps envGenPihole "prod" catalogW st0W).1
    (generateApps envGenPihole "prod" catalogW st0W).2 "pihole" piholeComp rfl hkey huniq
  exact ⟨by decide, T.1 "user root" (by decide), T.2.1 "user custom" (by decide),
    T.2.2.1 "user values" (by decide)⟩


end Klabctl
